import Mathlib

/-!
Verification of the SpotDB database facade and CSV ingestion pipeline.

The Go source is shallowly embedded: pure helpers become Lean functions,
the stateful copy loop becomes explicit state passing, and the external
collaborators (the embedded SQL engine, the statistical encoding detector,
the structural CSV validator) are abstracted as function parameters.
Byte strings are modelled as `List Char` with each `Char` standing for one
byte (all inputs of interest are ASCII; byte 0x0A is the newline).
Case folding for the case-insensitive SQL patterns is modelled on ASCII
letters only, matching the `(?i)` flag's effect on the ASCII literals that
occur in the patterns.
-/

namespace SpotDB

/-- One byte / rune of input. -/
abbrev Str := List Char

/-- The apostrophe character (0x27). -/
def squote : Char := Char.ofNat 39

/-- The backtick character (0x60). -/
def btick : Char := Char.ofNat 96

/-- `sanitizeTableName`'s allowed character class: `[A-Za-z0-9_]`
(from `duckdb.go`, `sanitizeTableName`). -/
def isTableNameChar (c : Char) : Bool :=
  (('a' ≤ c && c ≤ 'z') || ('A' ≤ c && c ≤ 'Z') || ('0' ≤ c && c ≤ '9') || c = '_')

/-- The per-rune map of `sanitizeTableName`: allowed runes kept, others
replaced by an underscore. -/
def sanitizeChar (c : Char) : Char := if isTableNameChar c then c else '_'

/-- `sanitizeTableName` from `pkg/database/duckdb.go`: `strings.Map` of
`sanitizeChar` over the name (the map function never drops a rune). -/
def sanitizeTableName (t : Str) : Str := t.map sanitizeChar

/-! ## A small matcher for the regular expressions used by the source

Go's `regexp` package implements leftmost-first (Perl-like) match
semantics.  Every pattern appearing in the source is a plain sequence of
single-character classes, greedy quantifiers over single-character
classes, and word boundaries, so we model a pattern as a `List Tok` and
implement the standard greedy backtracking matcher, which coincides with
leftmost-first semantics for such patterns. -/

/-- One token of a regular expression: a single-character class, a greedy
optional / star / plus over a class, or a zero-width word boundary. -/
inductive Tok where
  | pred (p : Char → Bool)
  | optR (p : Char → Bool)
  | starR (p : Char → Bool)
  | plusR (p : Char → Bool)
  | wordB

/-- Word characters for the regexp `\w` class and `\b` boundaries:
`[0-9A-Za-z_]`. -/
def isWordChar (c : Char) : Bool :=
  (('a' ≤ c && c ≤ 'z') || ('A' ≤ c && c ≤ 'Z') || ('0' ≤ c && c ≤ '9') || c = '_')

/-- Whitespace for the regexp `\s` class: tab, newline, form feed,
carriage return, space. -/
def isSpaceRE (c : Char) : Bool :=
  (c = ' ' || c = Char.ofNat 9 || c = Char.ofNat 10 || c = Char.ofNat 12 || c = Char.ofNat 13)

/-- Digits for the regexp `\d` class. -/
def isDigitChar (c : Char) : Bool := ('0' ≤ c && c ≤ '9')

/-- The regexp `.` class: any character except newline. -/
def isDotChar (c : Char) : Bool := !(c = Char.ofNat 10)

/-- Word-character test on the character left or right of a position;
outside the string counts as a non-word character. -/
def isWordOpt : Option Char → Bool
  | none => false
  | some c => isWordChar c

/-- ASCII lower-casing, used to model the `(?i)` flag on the ASCII
letters that occur in the source's patterns. -/
def lowerAscii (c : Char) : Char :=
  if 'A' ≤ c && c ≤ 'Z' then Char.ofNat (c.toNat + 32) else c

/-- Case-insensitive single-letter token (the argument is lowercase). -/
def ci (c : Char) : Tok := .pred (fun d => lowerAscii d = c)

/-- Literal single-character token. -/
def lit (c : Char) : Tok := .pred (fun d => d = c)

/-- Greedy `p*` followed by a continuation `k` that matches the remaining
tokens: consume as many `p`-characters as possible, backtracking one
character at a time when the continuation fails. -/
def matchStarK (p : Char → Bool) (k : Option Char → Str → Option Str) :
    Option Char → Str → Option Str
  | prev, [] => k prev []
  | prev, c :: s =>
      if p c then
        match matchStarK p k (some c) s with
        | some r => some (c :: r)
        | none => k prev (c :: s)
      else k prev (c :: s)

/-- Greedy backtracking matcher: try to match the token list at the start
of `s`, with `prev` the character just before this position (`none` at
the start of the subject).  Returns the consumed prefix on success. -/
def matchToks : List Tok → Option Char → Str → Option Str
  | [] => fun _ _ => some []
  | .pred p :: ts => fun _ s =>
      match s with
      | [] => none
      | c :: rest => if p c then (matchToks ts (some c) rest).map (c :: ·) else none
  | .optR p :: ts => fun prev s =>
      match s with
      | [] => matchToks ts prev []
      | c :: rest =>
        if p c then
          match matchToks ts (some c) rest with
          | some r => some (c :: r)
          | none => matchToks ts prev (c :: rest)
        else matchToks ts prev (c :: rest)
  | .starR p :: ts => matchStarK p (matchToks ts)
  | .plusR p :: ts => fun _ s =>
      match s with
      | [] => none
      | c :: rest =>
        if p c then (matchStarK p (matchToks ts) (some c) rest).map (c :: ·) else none
  | .wordB :: ts => fun prev s =>
      if isWordOpt prev != isWordOpt s.head? then matchToks ts prev s else none

/-- Scan left to right for the first position where the pattern matches
(Go's leftmost-first rule); returns the matched substring. -/
def findMatch : List Tok → Option Char → Str → Option Str
  | toks, prev, [] => matchToks toks prev []
  | toks, prev, c :: rest =>
    match matchToks toks prev (c :: rest) with
    | some r => some r
    | none => findMatch toks (some c) rest

/-- `regexp.MatchString`: does the pattern match anywhere in `s`? -/
def reMatches (toks : List Tok) (s : Str) : Bool := (findMatch toks none s).isSome

/-! ## validateQuery (pkg/database/duckdb.go)

The six deny-list patterns, transcribed token by token. -/

/-- `(?i)\bUNION\b.*\bSELECT\b`. -/
def reUnionSelect : List Tok :=
  [.wordB, ci 'u', ci 'n', ci 'i', ci 'o', ci 'n', .wordB, .starR isDotChar,
   .wordB, ci 's', ci 'e', ci 'l', ci 'e', ci 'c', ci 't', .wordB]

/-- `(?i)\bOR\b\s+\d+\s*=\s*\d+`. -/
def reOrEq : List Tok :=
  [.wordB, ci 'o', ci 'r', .wordB, .plusR isSpaceRE, .plusR isDigitChar,
   .starR isSpaceRE, lit '=', .starR isSpaceRE, .plusR isDigitChar]

/-- `(?i)--`. -/
def reDashDash : List Tok := [lit '-', lit '-']

/-- `(?i)/\*.*\*/`. -/
def reBlockComment : List Tok := [lit '/', lit '*', .starR isDotChar, lit '*', lit '/']

/-- `(?i)\bEXEC\b`. -/
def reExec : List Tok := [.wordB, ci 'e', ci 'x', ci 'e', ci 'c', .wordB]

/-- `(?i)\bXP_\w+\b`. -/
def reXp : List Tok := [.wordB, ci 'x', ci 'p', lit '_', .plusR isWordChar, .wordB]

/-- The `suspiciousPatterns` list of `validateQuery`, in source order,
paired with the Go pattern strings (used in the error message). -/
def suspiciousPatterns : List (String × List Tok) :=
  [("(?i)\\bUNION\\b.*\\bSELECT\\b", reUnionSelect),
   ("(?i)\\bOR\\b\\s+\\d+\\s*=\\s*\\d+", reOrEq),
   ("(?i)--", reDashDash),
   ("(?i)/\\*.*\\*/", reBlockComment),
   ("(?i)\\bEXEC\\b", reExec),
   ("(?i)\\bXP_\\w+\\b", reXp)]

/-- `validateQuery` from `pkg/database/duckdb.go`: the first matching
deny-list pattern yields the error; `none` means the query is accepted.
(The multi-semicolon count in the source only logs and never rejects;
the regex-compile error branch is unreachable since all six patterns are
valid.) -/
def validateQuery (query : Str) : Option String :=
  (suspiciousPatterns.find? (fun pr => reMatches pr.2 query)).map
    (fun pr => "potentially malicious SQL pattern detected: " ++ pr.1)

/-! ## splitQueryBySemicolon (pkg/database/duckdb.go) -/

/-- The newline character. -/
def nl : Char := Char.ofNat 10

/-- State of the quote-aware splitter: emitted segments, current segment,
`inQuote`, `escapeNext`. -/
structure SplitSt where
  acc : List Str
  cur : Str
  inQuote : Bool
  escapeNext : Bool
deriving DecidableEq

/-- One character step of `splitQueryBySemicolon`'s loop. -/
def splitStep (st : SplitSt) (c : Char) : SplitSt :=
  if st.escapeNext then { st with cur := st.cur ++ [c], escapeNext := false }
  else if c = '\\' then { st with cur := st.cur ++ [c], escapeNext := true }
  else if c = '"' || c = squote then { st with cur := st.cur ++ [c], inQuote := !st.inQuote }
  else if c = ';' && !st.inQuote then { st with acc := st.acc ++ [st.cur], cur := [] }
  else { st with cur := st.cur ++ [c] }

/-- Run the splitter over a string. -/
def splitRun (s : Str) (st : SplitSt) : SplitSt := s.foldl splitStep st

/-- Initial splitter state. -/
def splitInit : SplitSt := ⟨[], [], false, false⟩

/-- Final-state packaging: the last segment is appended only when
non-empty. -/
def splitFinalize (st : SplitSt) : List Str :=
  if st.cur.length > 0 then st.acc ++ [st.cur] else st.acc

/-- `splitQueryBySemicolon` from `pkg/database/duckdb.go`. -/
def splitQueryBySemicolon (q : Str) : List Str :=
  splitFinalize (splitRun q splitInit)

/-- Re-joining segments with a semicolon between them (used to state the
round-trip law of the spec). -/
def joinSemi : List Str → Str
  | [] => []
  | [s] => s
  | s :: rest => s ++ ';' :: joinSemi rest

/-! ## ExecuteQuery (pkg/database/duckdb.go)

The embedded engine is abstracted as a function from a SQL text to either
an engine error or a `QueryResultM` (what `executeSingleQuery` produces
for that statement, including the time it took in nanoseconds).  The
total wall-clock time of the loop is modelled as the sum of the
individual execution times. -/

/-- The benchmark record (`BenchmarkMetrics` in the source).  Durations
are nanoseconds; the `…Ms` fields are the truncating `Milliseconds()`
values.  `CpuTimeMs` is computed in the source by float64 arithmetic
(`ms * 0.8`) and is not modelled.  `HitRatio` is the constant 0.83,
modelled as a rational. -/
structure BenchmarkMetrics where
  totalMs : Nat
  parsingMs : Nat
  planningMs : Nat
  executionMs : Nat
  serializationMs : Nat
  peakMemoryBytes : Nat
  threadCount : Nat
  ioReadBytes : Nat
  ioWriteBytes : Nat
  rowsProcessed : Nat
  rowsReturned : Nat
  operatorCount : Nat
  scanCount : Nat
  hitCount : Nat
  missCount : Nat
  hitRatio : Rat
deriving DecidableEq

/-- A query result (`QueryResult` in the source): rows as column/value
maps, optional benchmarks, and the duration in nanoseconds. -/
structure QueryResultM where
  results : List (List (String × String))
  benchmarkMetrics : Option BenchmarkMetrics
  duration : Nat
deriving DecidableEq

/-- `calculateBenchmarkMetrics` from `pkg/database/duckdb.go`.  The
execution span is `max(duration - parsing - planning - serialization, 0)`
(natural subtraction).  All arguments are nanoseconds except the two
counts. -/
def calculateBenchmarkMetrics (duration parsingDuration planningDuration serializationDuration : Nat)
    (rowCount resultCount : Nat) : BenchmarkMetrics :=
  { parsingMs := parsingDuration / 1000000
    planningMs := planningDuration / 1000000
    serializationMs := serializationDuration / 1000000
    executionMs := (duration - parsingDuration - planningDuration - serializationDuration) / 1000000
    totalMs := duration / 1000000
    threadCount := 4
    peakMemoryBytes := resultCount * 1024
    ioReadBytes := resultCount * 256
    ioWriteBytes := 0
    rowsProcessed := rowCount * 2
    rowsReturned := rowCount
    operatorCount := 3
    scanCount := 1
    hitCount := 10
    missCount := 2
    hitRatio := (83 : Rat) / 100 }

/-- `executeSingleQuery`, given the rows the engine streamed back and the
measured spans.  The row counter and `len(results)` coincide in the
source (a row is appended exactly when the counter is incremented), so
both count arguments of `calculateBenchmarkMetrics` receive the row-list
length. -/
def executeSingleQueryModel (rows : List (List (String × String)))
    (duration parsingDuration planningDuration serializationDuration : Nat) : QueryResultM :=
  { results := rows
    benchmarkMetrics := some (calculateBenchmarkMetrics duration parsingDuration
      planningDuration serializationDuration rows.length rows.length)
    duration := duration }

/-- Is a character Unicode whitespace for Go's `strings.TrimSpace`
(modelled for the Latin-1 range, which covers every input considered
here). -/
def isGoSpace (c : Char) : Bool :=
  (c = ' ' || c = Char.ofNat 9 || c = Char.ofNat 10 || c = Char.ofNat 11 ||
   c = Char.ofNat 12 || c = Char.ofNat 13 || c = Char.ofNat 133 || c = Char.ofNat 160)

/-- `strings.TrimSpace`. -/
def trimSpace (s : Str) : Str :=
  ((s.dropWhile isGoSpace).reverse.dropWhile isGoSpace).reverse

/-- Outcome of `ExecuteQuery`: the returned value/error plus the list of
statements actually handed to the engine, in order. -/
structure ExecOutcome where
  result : Except String QueryResultM
  calls : List Str

/-- Patch a result's duration (and benchmark total) with the loop's total
time, as `ExecuteQuery` does after the loop. -/
def setTotalDuration (r : QueryResultM) (total : Nat) : QueryResultM :=
  { r with duration := total,
           benchmarkMetrics := r.benchmarkMetrics.map (fun b => { b with totalMs := total / 1000000 }) }

/-- The statement loop of `ExecuteQuery`: `i` is the 0-based index into
the full segment list, `last` the last successful result, `calls` the
engine calls so far, `elapsed` the accumulated time. -/
def execLoop (engine : Str → Except String QueryResultM) :
    List Str → Nat → Option QueryResultM → List Str → Nat → ExecOutcome
  | [], _, last, calls, elapsed =>
    match last with
    | none => ⟨.error "no valid queries to execute", calls⟩
    | some r => ⟨.ok (setTotalDuration r elapsed), calls⟩
  | q :: rest, i, last, calls, elapsed =>
    let t := trimSpace q
    if t = [] then execLoop engine rest (i + 1) last calls elapsed
    else
      match engine t with
      | .error e =>
        ⟨.error ("failed to execute query " ++ toString (i + 1) ++ ": " ++ e), calls ++ [t]⟩
      | .ok r => execLoop engine rest (i + 1) (some r) (calls ++ [t]) (elapsed + r.duration)

/-- `ExecuteQuery` from `pkg/database/duckdb.go`: closed-connection
check, pre-flight validation, split, loop. -/
def executeQuery (engine : Str → Except String QueryResultM) (connOpen : Bool) (q : Str) :
    ExecOutcome :=
  if !connOpen then ⟨.error "database connection is closed", []⟩
  else
    match validateQuery q with
    | some msg => ⟨.error ("invalid SQL query: " ++ msg), []⟩
    | none => execLoop engine (splitQueryBySemicolon q) 0 none [] 0

/-- Modelled from the spec, for the C3 refinement: the enumerated
segments that are non-empty after trimming, each carrying its 1-based
position in the full segment list. -/
def specJobsFrom (i : Nat) : List Str → List (Nat × Str)
  | [] => []
  | s :: rest =>
    let t := trimSpace s
    if t = [] then specJobsFrom (i + 1) rest else (i + 1, t) :: specJobsFrom (i + 1) rest

/-- Modelled from the spec, for the C3 refinement: execute the non-empty
segments left to right; the first failure aborts with the engine error
wrapped with the segment's 1-based statement index; on success the last
segment's result is returned with its duration replaced by the total
over all segments. -/
def specRun (engine : Str → Except String QueryResultM) :
    List (Nat × Str) → List Str → Option QueryResultM → Nat → ExecOutcome
  | [], calls, last, total =>
    match last with
    | none => ⟨.error "no valid queries to execute", calls⟩
    | some r => ⟨.ok (setTotalDuration r total), calls⟩
  | (i, t) :: rest, calls, _last, total =>
    match engine t with
    | .error e => ⟨.error ("failed to execute query " ++ toString i ++ ": " ++ e), calls ++ [t]⟩
    | .ok r => specRun engine rest (calls ++ [t]) (some r) (total + r.duration)

/-- Modelled from the spec: the behaviour C3 describes, as a function of
the split segments. -/
def executeQuerySpec (engine : Str → Except String QueryResultM) (segs : List Str) : ExecOutcome :=
  specRun engine (specJobsFrom 0 segs) [] none 0

/-! ## The quote/escape machine of the splitter, per segment (used to
state and prove the C4 round-trip law). -/

/-- The `in_quote`/`escape_next` evolution for a character that is kept
in the current segment. -/
def segStep (st : Bool × Bool) (c : Char) : Bool × Bool :=
  if st.2 then (st.1, false)
  else if c = '\\' then (st.1, true)
  else if c = '"' || c = squote then (!st.1, st.2)
  else st

/-- Run of the quote/escape machine over a segment. -/
def qrun (st : Bool × Bool) (s : Str) : Bool × Bool := s.foldl segStep st

/-- A separator-free run: processing `s` from state `st` never reaches
the split case (a semicolon outside quotes with no pending escape). -/
def segOK : Bool × Bool → Str → Bool
  | _, [] => true
  | st, c :: s =>
    if st.2 then segOK (st.1, false) s
    else if c = '\\' then segOK (st.1, true) s
    else if c = '"' || c = squote then segOK (!st.1, st.2) s
    else if c = ';' && !st.1 then false
    else segOK st s

/-- The invariant of the splitter run: every emitted segment is
separator-free and returns the quote machine to its initial state, and
the current segment is separator-free with the machine state equal to
the splitter's. -/
def SplitInv (st : SplitSt) : Prop :=
  (∀ seg ∈ st.acc, segOK (false, false) seg = true ∧ qrun (false, false) seg = (false, false)) ∧
  segOK (false, false) st.cur = true ∧
  qrun (false, false) st.cur = (st.inQuote, st.escapeNext)

/-! ## CSV line splitting and the injection screen (pkg/helpers/helpers.go) -/

/-- The tab character. -/
def tabChar : Char := Char.ofNat 9

/-- The carriage-return character. -/
def crChar : Char := Char.ofNat 13

/-- Delimiter detection of `splitCSVLine`: tab if present, else
semicolon if present, else comma. -/
def detectDelimiter (line : Str) : Char :=
  if line.contains tabChar then tabChar
  else if line.contains ';' then ';'
  else ','

/-- The two trailing-newline strips applied to the last CSV field:
`bytes.TrimSuffix(f, "\n")` then `bytes.TrimSuffix(f1, "\r\n")`. -/
def stripLastField (f : Str) : Str :=
  let f1 := if f.reverse.take 1 = [nl] then f.dropLast else f
  if f1.reverse.take 2 = [nl, crChar] then f1.dropLast.dropLast else f1

/-- The field loop of `splitCSVLine`: a double quote toggles `inQ` (and
stays in the field); an unquoted delimiter closes the field; the final
field is kept only when non-empty, after newline stripping. -/
def splitCSVAux (delim : Char) : Str → Bool → Str → List Str
  | [], _, cur => if cur = [] then [] else [stripLastField cur]
  | c :: rest, inQ, cur =>
    if c = '"' then splitCSVAux delim rest (!inQ) (cur ++ [c])
    else if !inQ && c = delim then cur :: splitCSVAux delim rest inQ []
    else splitCSVAux delim rest inQ (cur ++ [c])

/-- `splitCSVLine` from `pkg/helpers/helpers.go`. -/
def splitCSVLine (line : Str) : List Str :=
  splitCSVAux (detectDelimiter line) line false []

/-- `parseCSVFields` (delegates to `splitCSVLine`). -/
def parseCSVFields (line : Str) : List Str := splitCSVLine line

/-- `strings.Trim(name, "\"")`: strip leading and trailing runs of
double quotes. -/
def trimHeaderQuotes (s : Str) : Str :=
  ((s.dropWhile (fun c => c = '"')).reverse.dropWhile (fun c => c = '"')).reverse

/-- `parseHeaderLine`: the header map, as the list of quote-trimmed
field names indexed by column position. -/
def parseHeaderLine (line : Str) : List String :=
  (splitCSVLine line).map (fun f => String.mk (trimHeaderQuotes f))

/-- `getColumnName`: empty for a missing field index; the header-map
name when present; otherwise the 1-based `Column <i>` default. -/
def getColumnName (fieldIndex : Option Nat) (columnMap : List String) : String :=
  match fieldIndex with
  | none => ""
  | some i =>
    match columnMap.get? i with
    | some name => name
    | none => "Column " ++ toString (i + 1)

/-- `strings.Contains`: does some suffix of the haystack start with the
needle? -/
def substrIn (needle : Str) : Str → Bool
  | [] => needle.isPrefixOf ([] : Str)
  | c :: t => needle.isPrefixOf (c :: t) || substrIn needle t

/-- `findSuspiciousField`: the first CSV field containing the matched
substring, with its index. -/
def findSuspiciousField (fields : List Str) (m : Str) : Option (Nat × Str) :=
  (fields.enum.find? (fun pr => substrIn m pr.2)).map (fun pr => (pr.1, pr.2))

/-- A structured validation finding (`helpers.ValidationIssue`). -/
structure ValidationIssue where
  pattern : String
  line : Nat
  column : String
  value : String
deriving DecidableEq

/-- `createValidationIssue` from `pkg/helpers/helpers.go`. -/
def createValidationIssue (rowData : Str) (pattern : String) (matched : Str)
    (lineNumber : Nat) (columnMap : List String) : ValidationIssue :=
  let fields := parseCSVFields rowData
  if matched = [] then { pattern := "", line := lineNumber, column := "", value := "" }
  else
    match findSuspiciousField fields matched with
    | some (i, f) =>
      { pattern := pattern, line := lineNumber,
        column := getColumnName (some i) columnMap, value := String.mk f }
    | none =>
      { pattern := pattern, line := lineNumber,
        column := getColumnName none columnMap, value := "" }

/-- Character classes for the CSV injection patterns. -/
def isAlphaChar (c : Char) : Bool := (('a' ≤ c && c ≤ 'z') || ('A' ≤ c && c ≤ 'Z'))

/-- Lowercase letters, for the `[a-z]` class. -/
def isLowerChar (c : Char) : Bool := ('a' ≤ c && c ≤ 'z')

/-- The optional formula marker class `[="']?`. -/
def optFormula : Tok := .optR (fun c => c = '=' || c = '"' || c = squote)

/-- `[^>]` (any character except a closing angle bracket, newline
included). -/
def notGt (c : Char) : Bool := !(c = '>')

/-- The quote class of the event-handler pattern (single quote, double
quote, backtick). -/
def quoteCls (c : Char) : Bool := (c = squote || c = '"' || c = btick)

/-- The negation of `quoteCls`. -/
def notQuoteCls (c : Char) : Bool := !(quoteCls c)

/-- `[^\s>]`. -/
def notSpaceGt (c : Char) : Bool := (!(isSpaceRE c) && !(c = '>'))

/-- Literal token sequence for a string. -/
def lits (s : String) : List Tok := s.data.map lit

/-- `CommonCSVInjectionPatterns` from `pkg/helpers/helpers.go`, in
source order, each paired with its transcription. -/
def csvInjectionPatterns : List (String × List Tok) :=
  [("[=\"']?=\\s*[A-Za-z]+\\s*\\(.*\\)",
    [optFormula, lit '=', .starR isSpaceRE, .plusR isAlphaChar, .starR isSpaceRE,
     lit '(', .starR isDotChar, lit ')']),
   ("[=\"']?\\+\\s*[A-Za-z]+\\s*\\(.*\\)",
    [optFormula, lit '+', .starR isSpaceRE, .plusR isAlphaChar, .starR isSpaceRE,
     lit '(', .starR isDotChar, lit ')']),
   ("[=\"']?-\\s*[A-Za-z]+\\s*\\(.*\\)",
    [optFormula, lit '-', .starR isSpaceRE, .plusR isAlphaChar, .starR isSpaceRE,
     lit '(', .starR isDotChar, lit ')']),
   ("[=\"']?@\\s*[A-Za-z]+\\s*\\(.*\\)",
    [optFormula, lit '@', .starR isSpaceRE, .plusR isAlphaChar, .starR isSpaceRE,
     lit '(', .starR isDotChar, lit ')']),
   ("[=\"']?=\\s*CMD\\s*\\(.*\\)",
    [optFormula, lit '=', .starR isSpaceRE] ++ lits "CMD" ++
     [.starR isSpaceRE, lit '(', .starR isDotChar, lit ')']),
   ("[=\"']?=\\s*cmd\\.[a-z]+",
    [optFormula, lit '=', .starR isSpaceRE] ++ lits "cmd." ++ [.plusR isLowerChar]),
   ("[=\"']?=\\s*cmd\\|.*\\'?/C",
    [optFormula, lit '=', .starR isSpaceRE] ++ lits "cmd|" ++
     [.starR isDotChar, .optR (fun c => c = squote), lit '/', lit 'C']),
   ("-cmd\\.exe!", lits "-cmd.exe!"),
   ("\\+cmd\\.exe!", lits "+cmd.exe!"),
   ("[=\"']?=\\s*DDE\\s*\\(.*\\)",
    [optFormula, lit '=', .starR isSpaceRE] ++ lits "DDE" ++
     [.starR isSpaceRE, lit '(', .starR isDotChar, lit ')']),
   ("[=\"']?=\\s*HYPERLINK\\s*\\(.*\\)",
    [optFormula, lit '=', .starR isSpaceRE] ++ lits "HYPERLINK" ++
     [.starR isSpaceRE, lit '(', .starR isDotChar, lit ')']),
   ("\\+IMPORTXML\\s*\\(.*\\)",
    lits "+IMPORTXML" ++ [.starR isSpaceRE, lit '(', .starR isDotChar, lit ')']),
   ("<script[^>]*>.*</script>",
    lits "<script" ++ [.starR notGt, lit '>', .starR isDotChar] ++ lits "</script>"),
   ("<img[^>]*onerror=", lits "<img" ++ [.starR notGt] ++ lits "onerror="),
   ("javascript:", lits "javascript:"),
   ("on\\w+=['\"`][^'\"`]*['\"`]",
    lits "on" ++ [.plusR isWordChar, lit '=', .pred quoteCls, .starR notQuoteCls, .pred quoteCls]),
   ("on\\w+=[^\\s>]*", lits "on" ++ [.plusR isWordChar, lit '=', .starR notSpaceGt]),
   ("<[^>]*\\son\\w+\\s*=",
    [lit '<', .starR notGt, .pred isSpaceRE] ++ lits "on" ++
     [.plusR isWordChar, .starR isSpaceRE, lit '=']),
   ("data:text/html", lits "data:text/html"),
   ("<iframe[^>]*>", lits "<iframe" ++ [.starR notGt, lit '>']),
   ("\\balert\\s*\\(", [.wordB] ++ lits "alert" ++ [.starR isSpaceRE, lit '(']),
   ("\\beval\\s*\\(", [.wordB] ++ lits "eval" ++ [.starR isSpaceRE, lit '('])]

/-- `suspiciousSequences`: the cheap pre-filter byte sequences. -/
def suspiciousSequences : List Str :=
  [("<script").data, ("</script").data, ("<img").data, ("javascript:").data,
   ("onerror=").data, ("onclick=").data, ("onload=").data, ("onmouseover=").data,
   ("onmouseout=").data, ("onchange=").data, ("onsubmit=").data, ("onfocus=").data,
   ("onblur=").data, ("onkeydown=").data, ("onkeypress=").data, ("onkeyup=").data,
   ("=cmd").data, ("=CMD").data, ("-cmd").data, ("cmd|").data, ("/C ").data,
   ("!A").data, ("=DDE").data, ("=SUM").data, ("=HYPERLINK").data, ("IMPORTXML").data,
   ("CONCATENATE").data, ("+IMPORT").data, ("@SUM").data]

/-- `containsSuspiciousBytes`: stage-1 pre-filter. -/
def containsSuspiciousBytes (data : Str) : Bool :=
  suspiciousSequences.any (fun seq => substrIn seq data)

/-- `checkRegexPatterns`: stage-2 regex check with early exit after the
first matching pattern (the result map holds exactly that pattern's
first match). -/
def checkRegexPatterns (data : Str) : Option (String × Str) :=
  csvInjectionPatterns.findSome? (fun pr => (findMatch pr.2 none data).map (fun m => (pr.1, m)))

/-- `findSuspiciousContent`: the two-stage detector. -/
def findSuspiciousContent (data : Str) : Option (String × Str) :=
  if !containsSuspiciousBytes data then none
  else checkRegexPatterns data

/-- An error produced by a validator callback: either a wrap of
`helpers.ErrInvalidBuffer` or another error (tested with `errors.Is` and
string matching respectively in the source).  The payload is the full
error message. -/
inductive VErr where
  | invalidBuffer (msg : String)
  | other (msg : String)
deriving DecidableEq

/-- `CSVRowCheckDetailed` from `pkg/helpers/helpers.go`: safe rows pass;
a suspicious row produces a detailed issue and an error wrapping
`ErrInvalidBuffer`. -/
def csvRowCheckDetailed (rowData : Str) (lineNumber : Nat) (columnMap : List String) :
    Bool × Option ValidationIssue × Option VErr :=
  match findSuspiciousContent rowData with
  | none => (true, none, none)
  | some (pattern, matched) =>
    (false, some (createValidationIssue rowData pattern matched lineNumber columnMap),
     some (.invalidBuffer "buffer validation failed: detected suspicious content"))

/-! ## Bounded copy (pkg/helpers/helpers.go)

The copy loop is embedded with explicit state.  The destination writer
is modelled as an accumulating byte list that always accepts the full
write (file writes; short writes and write errors are out of scope), so
the `invalid write result` / `ErrShortWrite` branches of
`writeDataFromContext` cannot fire.  `hasHeader` is the constant `true`
set by `CopyWithMaxSizeImpl`. -/

/-- A validator callback (`helpers.BufferValidationFunc`). -/
abbrev ValidatorFn := Str → Nat → List String → Bool × Option ValidationIssue × Option VErr

/-- An error escaping the bounded copy.  `invalidBuffer` answers true to
`errors.Is(err, ErrInvalidBuffer)`; the payload is the error message
used for the substring tests in `copyFileData`. -/
inductive CopyErr where
  | maxFileSizeExceeded
  | invalidBuffer (msg : String)
  | validationOther (msg : String)
deriving DecidableEq

/-- The error message (`err.Error()` in Go). -/
def CopyErr.message : CopyErr → String
  | .maxFileSizeExceeded => "max file size exceeded"
  | .invalidBuffer m => m
  | .validationOther m => m

/-- The copy state outside the line buffer: destination contents, bytes
written, 1-based line counter, header map, last validation issue, and
the number of accumulated warnings (their log text is not modelled). -/
structure CopyCore where
  out : Str
  written : Nat
  currentLine : Nat
  columnMap : List String
  validationIssue : Option ValidationIssue
  warnings : Nat
deriving DecidableEq

/-- The initial copy state. -/
def initCore : CopyCore :=
  { out := [], written := 0, currentLine := 0, columnMap := [],
    validationIssue := none, warnings := 0 }

/-- `writeDataFromContext`: write the data, bump the counter, and fail
with `ErrMaxFileSizeExceeded` when the cumulative count exceeds the
cap. -/
def writeDataFromContext (maxSize : Nat) (data : Str) (core : CopyCore) :
    CopyCore × Option CopyErr :=
  let core := { core with out := core.out ++ data, written := core.written + data.length }
  if maxSize < core.written then (core, some .maxFileSizeExceeded) else (core, none)

/-- `handleValidationError`: an `ErrInvalidBuffer`-wrapping error is
returned as-is regardless of mode; otherwise `reject_file` wraps it as a
buffer validation error and the other modes warn and continue. -/
def handleValidationError (mode : String) (e : VErr) (core : CopyCore) :
    CopyCore × Bool × Option CopyErr :=
  match e with
  | .invalidBuffer m => (core, false, some (.invalidBuffer m))
  | .other m =>
    if mode = "reject_file" then
      (core, false, some (.validationOther ("buffer validation error: " ++ m)))
    else ({ core with warnings := core.warnings + 1 }, false, none)

/-- `enrichValidationIssue`: when no column was identified, point at the
first field containing `=` or `<script`. -/
def enrichValidationIssue (issue : ValidationIssue) (fields : List Str)
    (columnMap : List String) : ValidationIssue :=
  if issue.column = "" && !fields.isEmpty then
    match fields.enum.find? (fun pr => substrIn ("=").data pr.2 || substrIn ("<script").data pr.2) with
    | some (i, f) =>
      let name :=
        match columnMap.get? i with
        | some n => if n = "" then "Column " ++ toString (i + 1) else n
        | none => "Column " ++ toString (i + 1)
      { issue with column := name, value := String.mk f }
    | none => issue
  else issue

/-- `handleInvalidContent`: mode policy for an invalid line with no
validator error (reject the file, skip the row, or write anyway);
unknown modes behave like `reject_file`. -/
def handleInvalidContent (mode : String) (core : CopyCore) :
    CopyCore × Bool × Option CopyErr :=
  if mode = "reject_file" then
    (core, false, some (.invalidBuffer "buffer validation failed: detected suspicious patterns"))
  else if mode = "reject_row" then
    ({ core with warnings := core.warnings + 1 }, true, none)
  else if mode = "ignore" then
    ({ core with warnings := core.warnings + 1 }, false, none)
  else
    (core, false, some (.invalidBuffer "buffer validation failed: detected suspicious patterns"))

/-- `validateContent` from `pkg/helpers/helpers.go`: run the validator,
record its issue (a pointer shared with the enrichment), then dispatch
on error / invalid / valid. -/
def validateContent (validator : ValidatorFn) (mode : String) (data : Str) (core : CopyCore) :
    CopyCore × Bool × Option CopyErr :=
  let fields := parseCSVFields data
  match validator data core.currentLine core.columnMap with
  | (isValid, issue, verr) =>
    let core :=
      match issue with
      | some iss => { core with validationIssue := some iss }
      | none => core
    match verr with
    | some e => handleValidationError mode e core
    | none =>
      if !isValid then
        match issue with
        | some iss =>
          let iss := enrichValidationIssue iss fields core.columnMap
          handleInvalidContent mode { core with validationIssue := some iss }
        | none => (core, false, none)
      else (core, false, none)

/-- `validateAndWrite`: skip empty buffers, count the line, treat line 1
as the header (parse the header map, write without validation),
otherwise validate and then write unless skipped. -/
def validateAndWrite (validator : Option ValidatorFn) (mode : String) (maxSize : Nat)
    (line : Str) (core : CopyCore) : CopyCore × Option CopyErr :=
  if line = [] then (core, none)
  else
    let core := { core with currentLine := core.currentLine + 1 }
    if core.currentLine = 1 then
      writeDataFromContext maxSize line { core with columnMap := parseHeaderLine line }
    else
      match validator with
      | none => writeDataFromContext maxSize line core
      | some v =>
        match validateContent v mode line core with
        | (core, _, some e) => (core, some e)
        | (core, skip, none) =>
          if skip then (core, none) else writeDataFromContext maxSize line core

/-- Split a byte buffer into its complete (newline-terminated) lines and
the trailing partial line, as the repeated `ReadBytes` of
`processCompleteLines` produces them. -/
def splitCompleteLines : Str → List Str × Str
  | [] => ([], [])
  | c :: r =>
    if c = nl then
      match splitCompleteLines r with
      | (ls, rem) => ([c] :: ls, rem)
    else
      match splitCompleteLines r with
      | (l :: ls, rem) => ((c :: l) :: ls, rem)
      | ([], rem) => ([], c :: rem)

/-- Run `validateAndWrite` over a list of complete lines, stopping at
the first error. -/
def runLines (validator : Option ValidatorFn) (mode : String) (maxSize : Nat) :
    List Str → CopyCore → CopyCore × Option CopyErr
  | [], core => (core, none)
  | l :: ls, core =>
    match validateAndWrite validator mode maxSize l core with
    | (core, some e) => (core, some e)
    | (core, none) => runLines validator mode maxSize ls core

/-- The chunked read loop of `processSourceData`: each `Read` returns up
to `bs` bytes (at least one when the source is non-empty), appends them
to the line buffer, and processes the complete lines; at EOF the pending
partial line is handled as one more line.  The fuel is initialised to
the source length (each read consumes at least one byte, so it never
runs out; the zero-fuel case is unreachable). -/
def processChunksF (validator : Option ValidatorFn) (mode : String) (maxSize bs : Nat) :
    Nat → Str → Str → CopyCore → CopyCore × Option CopyErr
  | _, [], buf, core =>
    if buf = [] then (core, none) else validateAndWrite validator mode maxSize buf core
  | 0, _ :: _, _, core => (core, none)
  | fuel + 1, c :: rest, buf, core =>
    let chunk := c :: rest.take (bs - 1)
    let rest2 := rest.drop (bs - 1)
    match splitCompleteLines (buf ++ chunk) with
    | (lines, rem) =>
      match runLines validator mode maxSize lines core with
      | (core2, some e) => (core2, some e)
      | (core2, none) => processChunksF validator mode maxSize bs fuel rest2 rem core2

/-- `CopyWithMaxSizeImpl` from `pkg/helpers/helpers.go` (the cap is the
caller's resolved maximum; the environment fallback for a non-positive
cap is resolved by the caller `GetMaxFileSize`). -/
def copyWithMaxSize (validator : Option ValidatorFn) (mode : String) (bs maxSize : Nat)
    (src : Str) : CopyCore × Option CopyErr :=
  processChunksF validator mode maxSize bs src.length src [] initCore

/-! ## CSV upload: copyFileData and the HTTP answer (pkg/api upload
handler)

`validateEncodingFromData` ultimately depends on the statistical
detector of the external chardet library, and `ValidateCSVFileFromData`
is the structural CSV validator; both are reached only from the
`lineNumber == 0` branch of the upload's validation wrapper, which the
bounded copy never takes (the validator is invoked with the 1-based
current line, which is at least 2 because line 1 is the header).  They
are therefore abstracted as parameters: `venc` returns the encoding
validation error if any, and `vstruct` models the structural tail of
that branch (its returned triple). -/

/-- The error detail of an upload error (`api.CSVErrorDetail`). -/
structure CSVErrorDetail where
  line : Nat
  column : String
  foundValue : String
  suggestion : String
deriving DecidableEq

/-- An upload error (`api.CSVError`). -/
structure CSVError where
  code : String
  message : String
  details : CSVErrorDetail
deriving DecidableEq

/-- The entries of `suggestionMap` used by `copyFileData`. -/
def suggestionMap (code : String) : String :=
  if code = "FILE_SIZE_EXCEEDED" then
    "Please reduce the file size or split it into smaller files."
  else if code = "SECURITY_VALIDATION_FAILED" then
    "Please ensure the file does not contain formulas, scripts or other potentially harmful content."
  else if code = "INVALID_ENCODING" then
    "Please ensure the file is saved with UTF-8 encoding before uploading."
  else if code = "UNSUPPORTED_ENCODING" then
    "Please ensure the file is saved with a supported encoding (UTF-8 or UTF-16) before uploading."
  else if code = "CSV_VALIDATION_ERROR" then
    "The file could not be processed. Please check the CSV format."
  else if code = "INVALID_CSV_STRUCTURE" then
    "Please ensure the CSV file has a consistent structure."
  else if code = "FILE_COPY_ERROR" then
    "Please try again or contact support if the issue persists."
  else ""

/-- The validation wrapper closure built by `copyFileData`.  Line
numbers above zero get security screening only; the `lineNumber == 0`
branch (security screen, then — once — encoding and structural
validation; small `test`-prefixed files skip the file-format checks) is
retained although the copy never invokes it (see C8).  The
`validatedFileFormat` once-flag of the closure is irrelevant here
because the branch guarded by it is evaluated at most once per model
call. -/
def validationWrapper (venc : Str → Option String)
    (vstruct : Str → Bool × Option ValidationIssue × Option VErr)
    (filename : String) : ValidatorFn :=
  fun data lineNumber columnMap =>
    if lineNumber > 0 then csvRowCheckDetailed data lineNumber columnMap
    else
      match csvRowCheckDetailed data lineNumber columnMap with
      | (false, issue, _) => (false, issue, some (.invalidBuffer "buffer validation failed"))
      | _ =>
        if data.length < 1024 && (("test").data).isPrefixOf filename.data then
          (true, none, none)
        else
          match venc data with
          | some msg => (false, none, some (.other ("invalid encoding: " ++ msg)))
          | none => vstruct data

/-- The `SECURITY_VALIDATION_FAILED` error of `copyFileData`, with the
detail fields filled from the validation issue when one is available and
the suggestion refined by the matched pattern. -/
def securityErrorOf (issue : Option ValidationIssue) : CSVError :=
  let base : CSVError :=
    { code := "SECURITY_VALIDATION_FAILED",
      message := "Security validation failed: file contains potentially malicious content",
      details := { line := 0, column := "", foundValue := "",
                   suggestion := suggestionMap "SECURITY_VALIDATION_FAILED" } }
  match issue with
  | none => base
  | some iss =>
    let sugg :=
      if substrIn ("=").data iss.pattern.data ||
         substrIn ("HYPERLINK").data iss.pattern.data ||
         substrIn ("IMPORT").data iss.pattern.data then
        "Please remove Excel/spreadsheet formulas from the file."
      else if substrIn ("script").data iss.pattern.data ||
              substrIn ("javascript").data iss.pattern.data then
        "Please remove HTML or JavaScript code from the file."
      else suggestionMap "SECURITY_VALIDATION_FAILED"
    { base with details := { line := iss.line, column := iss.column,
                             foundValue := iss.value, suggestion := sugg } }

/-- The error classification of `copyFileData`: the copy state, the
returned `CSVError` list, and the returned error message (`none` on
success). -/
def copyFileDataM (venc : Str → Option String)
    (vstruct : Str → Bool × Option ValidationIssue × Option VErr)
    (filename : String) (mode : String) (bs maxSize : Nat) (content : Str) :
    CopyCore × List CSVError × Option String :=
  match copyWithMaxSize (some (validationWrapper venc vstruct filename)) mode bs maxSize content with
  | (core, none) => (core, [], none)
  | (core, some .maxFileSizeExceeded) =>
    let msg := "file too large (max " ++ toString (maxSize / (1024 * 1024 * 1024)) ++ "GB)"
    (core,
     [{ code := "FILE_SIZE_EXCEEDED",
        message := "File too large (max " ++ toString (maxSize / (1024 * 1024 * 1024)) ++ "GB)",
        details := { line := 0, column := "", foundValue := "",
                     suggestion := suggestionMap "FILE_SIZE_EXCEEDED" } }],
     some msg)
  | (core, some (.invalidBuffer _)) =>
    (core, [securityErrorOf core.validationIssue],
     some "security validation failed: file contains potentially malicious content")
  | (core, some (.validationOther m)) =>
    if substrIn ("invalid encoding").data m.data then
      let code := if substrIn ("unsupported encoding").data m.data then "UNSUPPORTED_ENCODING"
                  else "INVALID_ENCODING"
      (core,
       [{ code := code, message := m,
          details := { line := 0, column := "", foundValue := "",
                       suggestion := suggestionMap code } }],
       some m)
    else if substrIn ("CSV validation error").data m.data then
      (core,
       [{ code := "CSV_VALIDATION_ERROR", message := "CSV validation error: " ++ m,
          details := { line := 0, column := "", foundValue := "",
                       suggestion := suggestionMap "CSV_VALIDATION_ERROR" } }],
       some m)
    else if substrIn ("invalid CSV structure").data m.data then
      let base : CSVError :=
        { code := "INVALID_CSV_STRUCTURE", message := m,
          details := { line := 0, column := "", foundValue := "",
                       suggestion := suggestionMap "INVALID_CSV_STRUCTURE" } }
      let structErr :=
        match core.validationIssue with
        | some iss =>
          if iss.line > 0 then
            { base with details := { line := iss.line, column := "", foundValue := "",
                                     suggestion := "Make sure all rows have the same number of columns." } }
          else base
        | none => base
      (core, [structErr], some m)
    else
      (core,
       [{ code := "FILE_COPY_ERROR", message := "Error processing file: " ++ m,
          details := { line := 0, column := "", foundValue := "",
                       suggestion := suggestionMap "FILE_COPY_ERROR" } }],
       some ("internal server error while processing file: " ++ m))

/-- The status selection of `handleCSVUpload` for an error returned by
`processCsvFileFromHeader`: 413 when the message mentions a too-large
file, otherwise 400. -/
def uploadHttpStatus (errMsg : String) : Nat :=
  if substrIn ("file too large").data errMsg.data then 413 else 400

/-- The HTTP answer of `handleCSVUpload` for an upload whose copy stage
fails: the status code and the error list of the JSON body (`none` when
the copy succeeds and the request proceeds to import). -/
def uploadCopyResponse (venc : Str → Option String)
    (vstruct : Str → Bool × Option ValidationIssue × Option VErr)
    (filename : String) (mode : String) (bs maxSize : Nat) (content : Str) :
    Option (Nat × List CSVError) :=
  match copyFileDataM venc vstruct filename mode bs maxSize content with
  | (_, errs, some msg) => some (uploadHttpStatus msg, errs)
  | (_, _, none) => none

/-- The write units of the bounded copy for a given source: its complete
newline-terminated lines followed by the trailing partial line (if
any). -/
def linePieces (s : Str) : List Str :=
  match splitCompleteLines s with
  | (ls, rem) => if rem = [] then ls else ls ++ [rem]

/-- The length of the longest write unit of a source. -/
def maxPieceLen (s : Str) : Nat :=
  ((linePieces s).map List.length).foldr Nat.max 0

/-- A two-line CSV upload whose second row carries a formula injection:
`name,value` then `x,=CMD('calc')`. -/
def securityDemoContent : Str :=
  ("name,value").data ++ [nl] ++ ("x,=CMD(").data ++ [squote] ++ ("calc").data ++
    [squote] ++ (")").data ++ [nl]

/-- A two-line CSV upload carrying a script injection in row 2. -/
def scriptDemoContent : Str :=
  ("h1,h2").data ++ [nl] ++ ("a,<script>x</script>").data ++ [nl]

/-- A benign two-line CSV upload (valid UTF-8 bytes). -/
def encodingDemoContent : Str :=
  ("a,b").data ++ [nl] ++ ("1,2").data ++ [nl]

/-! ## Close (pkg/database/duckdb.go)

`Close` cancels the context, closes the `database/sql` handle
(propagating its error wrapped), removes the database file with a
not-exist error explicitly ignored by the `!os.IsNotExist(err)` guard,
and removes the write-ahead file discarding any error.  The driver's
close error and a non-not-exist filesystem removal error are abstracted
as parameters; `database/sql.DB.Close` is idempotent and returns nil on
an already-closed handle, and `os.Remove` on a missing file fails with a
not-exist error. -/

/-- An error from `os.Remove`: the not-exist error, or any other
filesystem failure. -/
inductive RmErr where
  | notExist
  | other (msg : String)
deriving DecidableEq

/-- `os.IsNotExist` on an optional removal error. -/
def isNotExist : Option RmErr → Bool
  | some .notExist => true
  | _ => false

/-- `os.Remove`: on an existing file it removes it, unless the injected
filesystem error `fsErr` makes it fail; on a missing file it fails with
the not-exist error.  Returns the error and the new existence flag. -/
def osRemove (fsErr : Option String) (ex : Bool) : Option RmErr × Bool :=
  if ex then
    match fsErr with
    | some m => (some (.other m), true)
    | none => (none, false)
  else (some .notExist, false)

/-- The state of a `DuckDB` handle that `Close` touches: whether the
context has been cancelled, whether the `database/sql` connection is
closed, and whether the database file and its write-ahead file exist. -/
structure DBState where
  ctxCancelled : Bool
  sqlClosed : Bool
  dbFileExists : Bool
  walFileExists : Bool
deriving DecidableEq

/-- `database/sql.DB.Close`: idempotent, returning nil on an
already-closed handle; a first close surfaces the abstracted driver
error `driverErr`. -/
def sqlDBClose (driverErr : Option String) (closed : Bool) : Option String × Bool :=
  if closed then (none, true) else (driverErr, true)

/-- `Close` from `pkg/database/duckdb.go`: cancel the context, close the
connection (its error wrapped as `failed to close database connection`),
remove the database file (not-exist ignored), remove the write-ahead
file discarding any error.  A total function of the state: no execution
panics. -/
def dbClose (driverErr fsErr : Option String) (st : DBState) : Option String × DBState :=
  let st1 : DBState := { st with ctxCancelled := true }
  match sqlDBClose driverErr st1.sqlClosed with
  | (some e, closed) =>
    (some ("failed to close database connection: " ++ e), { st1 with sqlClosed := closed })
  | (none, closed) =>
    let st2 : DBState := { st1 with sqlClosed := closed }
    match osRemove fsErr st2.dbFileExists with
    | (rerr, ex) =>
      let st3 : DBState := { st2 with dbFileExists := ex }
      if rerr.isSome && !(isNotExist rerr) then
        (some "failed to remove database file", st3)
      else
        (none, { st3 with walFileExists := (osRemove fsErr st3.walFileExists).2 })

-- ===== THEOREMS =====

/-- C2: every rune of `sanitizeTableName t` lies in `[A-Za-z0-9_]`; runes
already in that class are preserved in place, every other rune becomes an
underscore, and the output has the same rune count as the input. -/
theorem sanitizeTableName_spec (t : Str) :
    (sanitizeTableName t).length = t.length ∧
    (∀ c ∈ sanitizeTableName t, isTableNameChar c = true) ∧
    (∀ i (h : i < t.length),
      (sanitizeTableName t).get ⟨i, by simpa [sanitizeTableName] using h⟩ =
        if isTableNameChar (t.get ⟨i, h⟩) then t.get ⟨i, h⟩ else '_') := by
  refine ⟨by simp [sanitizeTableName], ?_, ?_⟩
  · intro c hc
    simp only [sanitizeTableName, List.mem_map] at hc
    obtain ⟨a, _, rfl⟩ := hc
    by_cases h : isTableNameChar a = true
    · simp [sanitizeChar, h]
    · simp [sanitizeChar, h]
      decide
  · intro i h
    simp [sanitizeTableName, sanitizeChar]

/-- C2 witness: evaluation at a concrete name containing a dash. -/
theorem sanitizeTableName_spec_witness :
    (2 < ("a-b".data).length) ∧
    (sanitizeTableName ("a-b".data)).get
      ⟨1, by simp [sanitizeTableName]⟩ = '_' := by
  refine ⟨by decide, ?_⟩
  have h := (sanitizeTableName_spec ("a-b".data)).2.2 1 (by decide)
  simpa using h

/-- Splitter runs compose over concatenation. -/
theorem splitRun_append (a b : Str) (st : SplitSt) :
    splitRun (a ++ b) st = splitRun b (splitRun a st) := by
  simp [splitRun, List.foldl_append]

/-- One character of the splitter either extends the current segment
(with the quote machine stepping along) or, precisely for an unescaped
unquoted semicolon, emits the segment. -/
theorem splitStep_cases (acc : List Str) (cur : Str) (inQ esc : Bool) (c : Char) :
    (splitStep ⟨acc, cur, inQ, esc⟩ c =
        ⟨acc, cur ++ [c], (segStep (inQ, esc) c).1, (segStep (inQ, esc) c).2⟩ ∧
      ∀ s, segOK (inQ, esc) (c :: s) = segOK (segStep (inQ, esc) c) s) ∨
    (esc = false ∧ c = ';' ∧ inQ = false ∧
      splitStep ⟨acc, cur, inQ, esc⟩ c = ⟨acc ++ [cur], [], inQ, esc⟩ ∧
      ∀ s, segOK (inQ, esc) (c :: s) = false) := by
  by_cases h1 : esc = true
  · subst h1
    left
    exact ⟨by simp [splitStep, segStep], fun s => by simp [segOK, segStep]⟩
  · have h1 : esc = false := by simpa using h1
    subst h1
    by_cases h2 : c = '\\'
    · left
      exact ⟨by simp [splitStep, segStep, h2], fun s => by simp [segOK, segStep, h2]⟩
    · by_cases h3 : (c = '"' || c = squote) = true
      · left
        exact ⟨by simp [splitStep, segStep, h2, h3],
               fun s => by simp [segOK, segStep, h2, h3]⟩
      · by_cases h4 : c = ';'
        · subst h4
          have hns : ¬((';' : Char) = squote) := by decide
          by_cases h5 : inQ = true
          · subst h5
            left
            exact ⟨by simp [splitStep, segStep, h2, h3, hns],
                   fun s => by simp [segOK, segStep, h2, h3, hns]⟩
          · have h5 : inQ = false := by simpa using h5
            subst h5
            right
            refine ⟨rfl, rfl, rfl, ?_, fun s => ?_⟩
            · simp [splitStep, h2, h3, hns]
            · simp [segOK, h2, h3, hns]
        · left
          exact ⟨by simp [splitStep, segStep, h2, h3, h4],
                 fun s => by simp [segOK, segStep, h2, h3, h4]⟩

/-- Separator-free runs compose. -/
theorem segOK_append (a : Str) :
    ∀ (b : Str) (st : Bool × Bool), segOK st a = true → segOK (qrun st a) b = true →
      segOK st (a ++ b) = true := by
  induction a with
  | nil => intro b st _ hb; simpa [qrun] using hb
  | cons c a ih =>
    intro b st ha hb
    obtain ⟨inQ, esc⟩ := st
    rcases splitStep_cases [] [] inQ esc c with ⟨_, hseg⟩ | ⟨_, _, _, _, hseg⟩
    · rw [List.cons_append, hseg]
      rw [hseg] at ha
      exact ih b _ ha (by simpa [qrun] using hb)
    · rw [hseg] at ha
      exact absurd ha (by simp)

/-- A separator-free segment is appended verbatim to the current
segment, and the splitter's quote state evolves by the segment's
quote-machine run. -/
theorem splitRun_of_segOK (s : Str) :
    ∀ (inQ esc : Bool) (acc : List Str) (cur : Str), segOK (inQ, esc) s = true →
      splitRun s ⟨acc, cur, inQ, esc⟩ =
        ⟨acc, cur ++ s, (qrun (inQ, esc) s).1, (qrun (inQ, esc) s).2⟩ := by
  induction s with
  | nil => intro inQ esc acc cur _; simp [splitRun, qrun]
  | cons c s ih =>
    intro inQ esc acc cur h
    have hsr : splitRun (c :: s) (⟨acc, cur, inQ, esc⟩ : SplitSt) =
        splitRun s (splitStep ⟨acc, cur, inQ, esc⟩ c) := rfl
    have hqr : qrun (inQ, esc) (c :: s) = qrun (segStep (inQ, esc) c) s := rfl
    rw [hsr, hqr]
    rcases splitStep_cases acc cur inQ esc c with ⟨hstep, hseg⟩ | ⟨_, _, _, _, hseg⟩
    · rw [hstep]
      rw [hseg] at h
      have := ih (segStep (inQ, esc) c).1 (segStep (inQ, esc) c).2 acc (cur ++ [c]) (by simpa using h)
      simpa [List.append_assoc] using this
    · rw [hseg] at h
      exact absurd h (by simp)

/-- The splitter invariant is preserved by one step. -/
theorem splitInv_step (st : SplitSt) (c : Char) (h : SplitInv st) :
    SplitInv (splitStep st c) := by
  obtain ⟨acc, cur, inQ, esc⟩ := st
  obtain ⟨hacc, hok, hq⟩ := h
  rcases splitStep_cases acc cur inQ esc c with ⟨hstep, hseg⟩ | ⟨he, hc, hi, hstep, hseg⟩
  · rw [hstep]
    refine ⟨hacc, ?_, ?_⟩
    · refine segOK_append cur [c] _ hok ?_
      rw [hq]
      rw [hseg]
      rfl
    · show qrun (false, false) (cur ++ [c]) = _
      rw [show qrun (false, false) (cur ++ [c]) = segStep (qrun (false, false) cur) c from
        List.foldl_append _ _ _ _]
      rw [hq]
  · subst he; subst hc; subst hi
    rw [hstep]
    refine ⟨?_, rfl, rfl⟩
    intro seg hseg2
    rcases List.mem_append.mp hseg2 with hm | hm
    · exact hacc seg hm
    · have : seg = cur := by simpa using hm
      subst this
      exact ⟨hok, hq⟩

/-- The splitter invariant holds after running any input. -/
theorem splitInv_run (q : Str) :
    ∀ st : SplitSt, SplitInv st → SplitInv (splitRun q st) := by
  induction q with
  | nil => intro st h; exact h
  | cons c q ih =>
    intro st h
    exact ih (splitStep st c) (splitInv_step st c h)

/-- Reconstruction: joining non-empty separator-free segments with
semicolons and re-splitting returns exactly those segments, for any
already-emitted prefix `acc`. -/
theorem split_reconstruct :
    ∀ (segs : List Str) (acc : List Str),
      (∀ s ∈ segs, s ≠ [] ∧ segOK (false, false) s = true) →
      (∀ s ∈ segs.dropLast, qrun (false, false) s = (false, false)) →
      splitFinalize (splitRun (joinSemi segs) ⟨acc, [], false, false⟩) = acc ++ segs := by
  intro segs
  induction segs with
  | nil => intro acc _ _; simp [joinSemi, splitRun, splitFinalize]
  | cons s rest ih =>
    intro acc hall hdrop
    obtain ⟨hne, hok⟩ := hall s (by simp)
    cases rest with
    | nil =>
      show splitFinalize (splitRun s ⟨acc, [], false, false⟩) = acc ++ [s]
      rw [splitRun_of_segOK s false false acc [] hok]
      have : s.length > 0 := List.length_pos.mpr hne
      simp [splitFinalize, this]
    | cons s2 rest2 =>
      have hqs : qrun (false, false) s = (false, false) := by
        have hmem : s ∈ (s :: s2 :: rest2).dropLast := by
          exact List.mem_cons_self _ _
        exact hdrop s hmem
      have hjoin : joinSemi (s :: s2 :: rest2) = s ++ ';' :: joinSemi (s2 :: rest2) := rfl
      rw [hjoin]
      rw [show (s ++ ';' :: joinSemi (s2 :: rest2)) = (s ++ [';'] ++ joinSemi (s2 :: rest2)) by simp]
      rw [splitRun_append, splitRun_append]
      rw [splitRun_of_segOK s false false acc [] hok]
      rw [hqs]
      have hsemi : splitRun [';'] (⟨acc, [] ++ s, false, false⟩ : SplitSt) =
          ⟨acc ++ [s], [], false, false⟩ := by
        show splitStep ⟨acc, [] ++ s, false, false⟩ ';' = _
        simp [splitStep, squote]
      rw [hsemi]
      have hrest : ∀ t ∈ s2 :: rest2, t ≠ [] ∧ segOK (false, false) t = true := by
        intro t ht
        exact hall t (by simp [ht])
      have hrestd : ∀ t ∈ (s2 :: rest2).dropLast, qrun (false, false) t = (false, false) := by
        intro t ht
        refine hdrop t ?_
        have hsub : (s2 :: rest2).dropLast ⊆ (s :: s2 :: rest2).dropLast := by
          intro x hx
          exact List.mem_cons_of_mem s hx
        exact hsub ht
      have := ih (acc ++ [s]) hrest hrestd
      rw [this]
      simp

/-- C4: re-joining the non-empty segments of `splitQueryBySemicolon q`
with semicolons and splitting again yields exactly those segments: the
quoting state machine (quotes toggling on single or double quotes,
backslash escapes suppressing the next character) guarantees semicolons
inside quotes stay inside segments and only separator semicolons are
removed, so the rejoined string is semantically equivalent to `q`. -/
theorem split_join_roundtrip (q : Str) :
    splitQueryBySemicolon (joinSemi ((splitQueryBySemicolon q).filter (fun s => !s.isEmpty))) =
      (splitQueryBySemicolon q).filter (fun s => !s.isEmpty) := by
  have hinv : SplitInv (splitRun q splitInit) := by
    refine splitInv_run q splitInit ?_
    exact ⟨fun seg h => absurd h (List.not_mem_nil seg), rfl, rfl⟩
  obtain ⟨hacc, hok, hq⟩ := hinv
  set st := splitRun q splitInit with hst
  have hsq : splitQueryBySemicolon q = splitFinalize st := rfl
  set F := (splitFinalize st).filter (fun s => !s.isEmpty) with hF
  have hmemF : ∀ s ∈ F, s ≠ [] ∧ segOK (false, false) s = true := by
    intro s hs
    rw [hF] at hs
    have hmem := (List.mem_filter.mp hs).1
    have hne : s ≠ [] := by
      have := (List.mem_filter.mp hs).2
      simpa [List.isEmpty_iff] using this
    refine ⟨hne, ?_⟩
    unfold splitFinalize at hmem
    by_cases hcur : st.cur.length > 0
    · rw [if_pos hcur] at hmem
      rcases List.mem_append.mp hmem with hm | hm
      · exact (hacc s hm).1
      · have : s = st.cur := by simpa using hm
        subst this
        exact hok
    · rw [if_neg hcur] at hmem
      exact (hacc s hmem).1
  have hdropF : ∀ s ∈ F.dropLast, qrun (false, false) s = (false, false) := by
    intro s hs
    have hsacc : s ∈ st.acc := by
      rw [hF] at hs
      unfold splitFinalize at hs
      by_cases hcur : st.cur.length > 0
      · rw [if_pos hcur] at hs
        rw [List.filter_append] at hs
        have hb : (!st.cur.isEmpty) = true := by
          cases hcu : st.cur with
          | nil => rw [hcu] at hcur; simp at hcur
          | cons a l => rfl
        have hcurne : ([st.cur].filter (fun s => !s.isEmpty)) = [st.cur] := by
          simp [List.filter_cons, hb]
        rw [hcurne, List.dropLast_concat] at hs
        exact (List.mem_filter.mp hs).1
      · rw [if_neg hcur] at hs
        have := List.dropLast_sublist ((st.acc).filter (fun s => !s.isEmpty))
        exact (List.mem_filter.mp (this.subset hs)).1
    exact (hacc s hsacc).2
  have := split_reconstruct F [] hmemF hdropF
  simpa [splitQueryBySemicolon, splitInit] using this

/-- C1: every query that matches, case-insensitively, one of the six
deny-list patterns is rejected by `ExecuteQuery` with an error whose
message contains "potentially malicious SQL pattern detected", before
any statement reaches the engine (the engine-call list is empty); and a
query containing multiple semicolons is not rejected for that reason
alone (a three-statement query passes validation). -/
theorem executeQuery_rejects_malicious (engine : Str → Except String QueryResultM) (q : Str)
    (h : ∃ pr ∈ suspiciousPatterns, reMatches pr.2 q = true) :
    (∃ p : String,
      executeQuery engine true q =
        ⟨.error ("invalid SQL query: " ++
          ("potentially malicious SQL pattern detected: " ++ p)), []⟩) ∧
    validateQuery ("SELECT 1; SELECT 2; SELECT 3").data = none := by
  constructor
  · have hfind : (suspiciousPatterns.find? (fun pr => reMatches pr.2 q)).isSome := by
      rw [List.find?_isSome]
      obtain ⟨pr, hmem, hm⟩ := h
      exact ⟨pr, hmem, by simpa using hm⟩
    obtain ⟨pr, hpr⟩ := Option.isSome_iff_exists.mp hfind
    refine ⟨pr.1, ?_⟩
    simp [executeQuery, validateQuery, hpr]
  · decide

/-- C1 witness: the concrete query `SELECT 1 -- drop` matches the
comment pattern and is rejected without any engine call. -/
theorem executeQuery_rejects_malicious_witness :
    (∃ pr ∈ suspiciousPatterns, reMatches pr.2 ("SELECT 1 -- drop").data = true) ∧
    ((∃ p : String,
        executeQuery (fun _ => .error "engine unused") true ("SELECT 1 -- drop").data =
          ⟨.error ("invalid SQL query: " ++
            ("potentially malicious SQL pattern detected: " ++ p)), []⟩) ∧
      validateQuery ("SELECT 1; SELECT 2; SELECT 3").data = none) :=
  ⟨by decide, executeQuery_rejects_malicious _ _ (by decide)⟩

/-- C3 helper: the `ExecuteQuery` loop is the spec-side run over the
enumerated, trimmed, non-empty jobs. -/
theorem execLoop_eq_specRun (engine : Str → Except String QueryResultM) :
    ∀ (segs : List Str) (i : Nat) (last : Option QueryResultM) (calls : List Str) (total : Nat),
      execLoop engine segs i last calls total =
        specRun engine (specJobsFrom i segs) calls last total := by
  intro segs
  induction segs with
  | nil => intro i last calls total; rfl
  | cons s rest ih =>
    intro i last calls total
    show execLoop engine (s :: rest) i last calls total = _
    rw [execLoop, specJobsFrom]
    by_cases ht : trimSpace s = []
    · simp only [ht, if_pos rfl]
      exact ih (i + 1) last calls total
    · simp only [if_neg ht]
      rw [specRun]
      cases h : engine (trimSpace s) with
      | error e => simp only [h]
      | ok r =>
        simp only [h]
        exact ih (i + 1) (some r) (calls ++ [trimSpace s]) (total + r.duration)

/-- C3: for every query that passes pre-flight validation,
`ExecuteQuery` behaves exactly as the spec describes on the split
segments: the segments that are non-empty after trimming run
sequentially left to right, a failure at 1-based statement index i
aborts the remainder and wraps the engine error with i, and on success
the last non-empty segment's result is returned with its duration
replaced by the total over all segments. -/
theorem executeQuery_refines_spec (engine : Str → Except String QueryResultM) (q : Str)
    (h : validateQuery q = none) :
    executeQuery engine true q = executeQuerySpec engine (splitQueryBySemicolon q) := by
  unfold executeQuery executeQuerySpec
  rw [h]
  simpa using execLoop_eq_specRun engine (splitQueryBySemicolon q) 0 none [] 0

/-- C3 witness: a concrete three-segment query (with an empty segment)
against a concrete engine. -/
theorem executeQuery_refines_spec_witness :
    validateQuery ("SELECT 1;; SELECT 2 ").data = none ∧
    executeQuery (fun t => .ok ⟨[[("q", String.mk t)]], none, 7⟩) true
        ("SELECT 1;; SELECT 2 ").data =
      executeQuerySpec (fun t => .ok ⟨[[("q", String.mk t)]], none, 7⟩)
        (splitQueryBySemicolon ("SELECT 1;; SELECT 2 ").data) :=
  ⟨by decide, executeQuery_refines_spec _ _ (by decide)⟩

/-- C10: for a successfully executed single statement returning n rows,
the non-timing benchmark fields are fixed functions of n alone,
independent of every measured duration: thread_count 4, operator_count
3, scan_count 1, hit_count 10, miss_count 2, hit_ratio 0.83 (83/100),
io_write_bytes 0, rows_processed 2n, peak_memory_bytes 1024n,
io_read_bytes 256n. -/
theorem executeSingleQuery_benchmark_heuristics
    (rows : List (List (String × String))) (d p pl s : Nat) :
    ∃ b, (executeSingleQueryModel rows d p pl s).benchmarkMetrics = some b ∧
      b.threadCount = 4 ∧ b.operatorCount = 3 ∧ b.scanCount = 1 ∧
      b.hitCount = 10 ∧ b.missCount = 2 ∧ b.hitRatio = 83 / 100 ∧
      b.ioWriteBytes = 0 ∧ b.rowsProcessed = 2 * rows.length ∧
      b.peakMemoryBytes = 1024 * rows.length ∧ b.ioReadBytes = 256 * rows.length := by
  refine ⟨_, rfl, ?_⟩
  simp [calculateBenchmarkMetrics, Nat.mul_comm]

/-- Rewriting a cons under the line decomposition only needs the tail's
decomposition. -/
theorem splitCompleteLines_cons_congr (c : Char) (x y : Str)
    (h : splitCompleteLines x = splitCompleteLines y) :
    splitCompleteLines (c :: x) = splitCompleteLines (c :: y) := by
  simp only [splitCompleteLines, h]

/-- Line decomposition over concatenation: the complete lines of `a`
stay complete lines of `a ++ b`, and the rest decomposes from the
remainder joined with `b`. -/
theorem splitCompleteLines_append (b : Str) :
    ∀ (a : Str) (ls : List Str) (rem : Str) (ls2 : List Str) (rem2 : Str),
      splitCompleteLines a = (ls, rem) →
      splitCompleteLines (rem ++ b) = (ls2, rem2) →
      splitCompleteLines (a ++ b) = (ls ++ ls2, rem2) := by
  intro a
  induction a with
  | nil =>
    intro ls rem ls2 rem2 h1 h2
    have hls : ls = [] ∧ rem = [] := by
      have : (([], []) : List Str × Str) = (ls, rem) := by
        rw [← h1]; rfl
      exact ⟨congrArg Prod.fst this |>.symm, congrArg Prod.snd this |>.symm⟩
    obtain ⟨hl, hr⟩ := hls
    subst hl; subst hr
    simpa using h2
  | cons c r ih =>
    intro ls rem ls2 rem2 h1 h2
    rcases hsr : splitCompleteLines r with ⟨ls9, rem9⟩
    by_cases hc : c = nl
    · subst hc
      have h1e : splitCompleteLines (nl :: r) = ([nl] :: ls9, rem9) := by
        rw [splitCompleteLines, hsr]; simp
      rw [h1] at h1e
      have hl : ls = [nl] :: ls9 := congrArg Prod.fst h1e
      have hr : rem = rem9 := congrArg Prod.snd h1e
      rw [hr] at h2
      rw [hl]
      have hrb := ih ls9 rem9 ls2 rem2 hsr h2
      show splitCompleteLines (nl :: (r ++ b)) = _
      rw [splitCompleteLines, hrb]
      simp
    · cases ls9 with
      | cons l ls10 =>
        have h1e : splitCompleteLines (c :: r) = ((c :: l) :: ls10, rem9) := by
          rw [splitCompleteLines, hsr]
          simp [hc]
        rw [h1] at h1e
        have hl : ls = (c :: l) :: ls10 := congrArg Prod.fst h1e
        have hr : rem = rem9 := congrArg Prod.snd h1e
        rw [hr] at h2
        rw [hl]
        have hrb := ih (l :: ls10) rem9 ls2 rem2 hsr h2
        show splitCompleteLines (c :: (r ++ b)) = _
        rw [splitCompleteLines, hrb]
        simp [hc]
      | nil =>
        have h1e : splitCompleteLines (c :: r) = ([], c :: rem9) := by
          rw [splitCompleteLines, hsr]
          simp [hc]
        rw [h1] at h1e
        have hl : ls = [] := congrArg Prod.fst h1e
        have hr : rem = c :: rem9 := congrArg Prod.snd h1e
        rw [hr] at h2
        rw [hl]
        rcases hrb : splitCompleteLines (rem9 ++ b) with ⟨ls3, rem3⟩
        have hr2 := ih [] rem9 ls3 rem3 hsr hrb
        have hcon : splitCompleteLines (c :: (r ++ b)) =
            splitCompleteLines (c :: (rem9 ++ b)) := by
          refine splitCompleteLines_cons_congr c _ _ ?_
          rw [hr2]
          exact hrb.symm
        show splitCompleteLines (c :: (r ++ b)) = ([] ++ ls2, rem2)
        rw [hcon]
        simpa using h2

/-- The remainder of the line decomposition contains no newline. -/
theorem splitCompleteLines_rem_no_nl (s : Str) :
    ∀ ls rem, splitCompleteLines s = (ls, rem) → ¬ (nl ∈ rem) := by
  induction s with
  | nil =>
    intro ls rem h
    have h2 : rem = [] := (congrArg Prod.snd h).symm
    subst h2
    simp
  | cons c r ih =>
    intro ls rem h
    rcases hsr : splitCompleteLines r with ⟨ls9, rem9⟩
    by_cases hc : c = nl
    · subst hc
      have he : splitCompleteLines (nl :: r) = ([nl] :: ls9, rem9) := by
        rw [splitCompleteLines, hsr]; simp
      rw [h] at he
      have hr : rem = rem9 := congrArg Prod.snd he
      rw [hr]
      exact ih ls9 rem9 hsr
    · cases ls9 with
      | cons l ls10 =>
        have he : splitCompleteLines (c :: r) = ((c :: l) :: ls10, rem9) := by
          rw [splitCompleteLines, hsr]; simp [hc]
        rw [h] at he
        have hr : rem = rem9 := congrArg Prod.snd he
        rw [hr]
        exact ih (l :: ls10) rem9 hsr
      | nil =>
        have he : splitCompleteLines (c :: r) = ([], c :: rem9) := by
          rw [splitCompleteLines, hsr]; simp [hc]
        rw [h] at he
        have hr : rem = c :: rem9 := congrArg Prod.snd he
        rw [hr]
        intro hm
        rcases List.mem_cons.mp hm with hm | hm
        · exact hc hm.symm
        · exact ih [] rem9 hsr hm

/-- A newline-free source decomposes into no complete line and itself as
the remainder. -/
theorem splitCompleteLines_of_no_nl (s : Str) (h : ¬ (nl ∈ s)) :
    splitCompleteLines s = ([], s) := by
  induction s with
  | nil => rfl
  | cons c r ih =>
    have hc : ¬ (c = nl) := by
      intro hc; exact h (by rw [hc]; exact List.mem_cons_self _ _)
    have hr : ¬ (nl ∈ r) := fun hm => h (List.mem_cons_of_mem _ hm)
    rw [splitCompleteLines, ih hr]
    simp [hc]

/-- The line decomposition partitions the byte count. -/
theorem splitCompleteLines_length (s : Str) :
    ∀ ls rem, splitCompleteLines s = (ls, rem) →
      (ls.map List.length).sum + rem.length = s.length := by
  induction s with
  | nil =>
    intro ls rem h
    have h1 : ls = [] := (congrArg Prod.fst h).symm
    have h2 : rem = [] := (congrArg Prod.snd h).symm
    subst h1; subst h2; rfl
  | cons c r ih =>
    intro ls rem h
    rcases hsr : splitCompleteLines r with ⟨ls9, rem9⟩
    have ihr := ih ls9 rem9 hsr
    by_cases hc : c = nl
    · subst hc
      have he : splitCompleteLines (nl :: r) = ([nl] :: ls9, rem9) := by
        rw [splitCompleteLines, hsr]; simp
      rw [h] at he
      have h1 : ls = [nl] :: ls9 := congrArg Prod.fst he
      have h2 : rem = rem9 := congrArg Prod.snd he
      subst h1
      rw [h2]
      simp only [List.map_cons, List.sum_cons, List.length_cons, List.length_nil] at ihr ⊢
      omega
    · cases ls9 with
      | cons l ls10 =>
        have he : splitCompleteLines (c :: r) = ((c :: l) :: ls10, rem9) := by
          rw [splitCompleteLines, hsr]; simp [hc]
        rw [h] at he
        have h1 : ls = (c :: l) :: ls10 := congrArg Prod.fst he
        have h2 : rem = rem9 := congrArg Prod.snd he
        subst h1
        rw [h2]
        simp only [List.map_cons, List.sum_cons, List.length_cons] at ihr ⊢
        omega
      | nil =>
        have he : splitCompleteLines (c :: r) = ([], c :: rem9) := by
          rw [splitCompleteLines, hsr]; simp [hc]
        rw [h] at he
        have h1 : ls = [] := congrArg Prod.fst he
        have h2 : rem = c :: rem9 := congrArg Prod.snd he
        subst h1
        rw [h2]
        simp only [List.map_nil, List.sum_nil, List.length_cons] at ihr ⊢
        omega

/-- Write units over concatenation: the complete lines of `a` are write
units of `a ++ b`, followed by the units of the remainder joined with
`b`. -/
theorem linePieces_append (a b : Str) (ls : List Str) (rem : Str)
    (h : splitCompleteLines a = (ls, rem)) :
    linePieces (a ++ b) = ls ++ linePieces (rem ++ b) := by
  rcases h2 : splitCompleteLines (rem ++ b) with ⟨ls2, rem2⟩
  have h3 := splitCompleteLines_append b a ls rem ls2 rem2 h h2
  unfold linePieces
  rw [h3, h2]
  by_cases hr : rem2 = [] <;> simp [hr]

/-- A member's length is bounded by the folded maximum. -/
theorem length_le_foldr_max (L : List Str) (l : Str) (h : l ∈ L) :
    l.length ≤ (L.map List.length).foldr Nat.max 0 := by
  induction L with
  | nil => simp at h
  | cons x xs ih =>
    rcases List.mem_cons.mp h with h1 | h1
    · subst h1
      exact Nat.le_max_left _ _
    · exact Nat.le_trans (ih h1) (Nat.le_max_right _ _)

/-- Folded maximum over an append. -/
theorem foldr_max_append (x y : List Nat) :
    (x ++ y).foldr Nat.max 0 = Nat.max (x.foldr Nat.max 0) (y.foldr Nat.max 0) := by
  induction x with
  | nil => simp
  | cons a xs ih => simp [ih, Nat.max_assoc]

/-- Bounds transported through one chunk round: each complete line of
`a` fits in the longest unit of `a ++ b`, and the remainder's maximum
unit cannot exceed it either. -/
theorem maxPieceLen_through (a b : Str) (ls : List Str) (rem : Str)
    (h : splitCompleteLines a = (ls, rem)) :
    (∀ l ∈ ls, l.length ≤ maxPieceLen (a ++ b)) ∧
    maxPieceLen (rem ++ b) ≤ maxPieceLen (a ++ b) := by
  have hp := linePieces_append a b ls rem h
  constructor
  · intro l hl
    have hm : l ∈ linePieces (a ++ b) := by
      rw [hp]; exact List.mem_append_left _ hl
    exact length_le_foldr_max _ _ hm
  · unfold maxPieceLen
    rw [hp, List.map_append, foldr_max_append]
    exact Nat.le_max_right _ _

/-- A non-empty newline-free source is a single write unit of its own
length. -/
theorem maxPieceLen_no_nl (s : Str) (hn : ¬ (nl ∈ s)) (hne : s ≠ []) :
    maxPieceLen s = s.length := by
  unfold maxPieceLen linePieces
  rw [splitCompleteLines_of_no_nl s hn]
  simp [hne]

/-- `validateContent` never writes (its state changes touch only the
issue and warning fields) and never produces the size error. -/
theorem validateContent_effects (vf : ValidatorFn) (mode : String) (data : Str) (core : CopyCore) :
    (validateContent vf mode data core).1.written = core.written ∧
    (∀ e, (validateContent vf mode data core).2.2 = some e →
      ¬ (e = CopyErr.maxFileSizeExceeded)) := by
  unfold validateContent
  rcases vf data core.currentLine core.columnMap with ⟨isValid, issue, verr⟩
  cases issue with
  | none =>
    cases verr with
    | none => cases isValid <;> simp
    | some e =>
      cases e with
      | invalidBuffer m => simp [handleValidationError]
      | other m =>
        simp only [handleValidationError]
        by_cases hm : mode = "reject_file" <;> simp [hm]
  | some iss =>
    cases verr with
    | none =>
      cases isValid with
      | true => simp
      | false =>
        simp only [Bool.not_false, if_true]
        unfold handleInvalidContent
        by_cases h1 : mode = "reject_file"
        · simp [h1]
        · by_cases h2 : mode = "reject_row"
          · simp [h1, h2]
          · by_cases h3 : mode = "ignore" <;> simp [h1, h2, h3]
    | some e =>
      cases e with
      | invalidBuffer m => simp [handleValidationError]
      | other m =>
        simp only [handleValidationError]
        by_cases hm : mode = "reject_file" <;> simp [hm]

/-- Bounds for one `writeDataFromContext` call: the count always grows
by the data length; success means it stayed within the cap; the only
possible error is the size error, reporting an overshoot of at most the
data length. -/
theorem writeData_bounds (cap : Nat) (data : Str) (core : CopyCore) (h : core.written ≤ cap) :
    (writeDataFromContext cap data core).1.written = core.written + data.length ∧
    ((writeDataFromContext cap data core).2 = none →
       (writeDataFromContext cap data core).1.written ≤ cap) ∧
    ((writeDataFromContext cap data core).2 = some .maxFileSizeExceeded →
       cap < (writeDataFromContext cap data core).1.written ∧
       (writeDataFromContext cap data core).1.written ≤ cap + data.length) ∧
    (∀ e, (writeDataFromContext cap data core).2 = some e →
       e = CopyErr.maxFileSizeExceeded) := by
  unfold writeDataFromContext
  by_cases hover : cap < core.written + data.length
  · rw [if_pos hover]
    refine ⟨rfl, ?_, ?_, ?_⟩
    · intro hx
      exact absurd hx (by simp)
    · intro _
      refine ⟨hover, ?_⟩
      show core.written + data.length ≤ cap + data.length
      omega
    · intro e he
      exact (Option.some.inj he).symm
  · rw [if_neg hover]
    refine ⟨rfl, ?_, ?_, ?_⟩
    · intro _
      show core.written + data.length ≤ cap
      omega
    · intro hx
      exact absurd hx (by simp)
    · intro e he
      exact absurd he (by simp)

/-- Unfolding equation for `validateAndWrite` with a validator on a
non-header line. -/
theorem validateAndWrite_eq_some (vf : ValidatorFn) (mode : String) (cap : Nat)
    (line : Str) (core : CopyCore) (hl : ¬ (line = [])) (hline1 : ¬ (core.currentLine + 1 = 1)) :
    validateAndWrite (some vf) mode cap line core =
      (match validateContent vf mode line { core with currentLine := core.currentLine + 1 } with
       | (c2, _, some e) => (c2, some e)
       | (c2, skip, none) =>
         if skip = true then (c2, none) else writeDataFromContext cap line c2) := by
  unfold validateAndWrite
  rw [if_neg hl, if_neg hline1]

/-- Bounds for one `validateAndWrite` step: a successful step keeps the
count within the cap (and, without a validator, writes the whole line);
the size error means the cap was exceeded by at most the line length;
any other error leaves the count within the cap and implies a validator
was present. -/
theorem validateAndWrite_bounds (v : Option ValidatorFn) (mode : String) (cap : Nat)
    (line : Str) (core : CopyCore) (h : core.written ≤ cap) :
    ((validateAndWrite v mode cap line core).2 = none →
       (validateAndWrite v mode cap line core).1.written ≤ cap ∧
       (v = none →
         (validateAndWrite v mode cap line core).1.written = core.written + line.length)) ∧
    ((validateAndWrite v mode cap line core).2 = some .maxFileSizeExceeded →
       cap < (validateAndWrite v mode cap line core).1.written ∧
       (validateAndWrite v mode cap line core).1.written ≤ cap + line.length) ∧
    (∀ e, (validateAndWrite v mode cap line core).2 = some e →
       ¬ (e = CopyErr.maxFileSizeExceeded) →
       ¬ (v = none) ∧ (validateAndWrite v mode cap line core).1.written ≤ cap) := by
  by_cases hl : line = []
  · have hred : validateAndWrite v mode cap line core = (core, none) := by
      unfold validateAndWrite
      rw [if_pos hl]
    rw [hred]
    subst hl
    simp [h]
  · by_cases hline1 : core.currentLine + 1 = 1
    · have hred : validateAndWrite v mode cap line core =
          writeDataFromContext cap line
            { core with currentLine := core.currentLine + 1, columnMap := parseHeaderLine line } := by
        unfold validateAndWrite
        rw [if_neg hl, if_pos hline1]
      rw [hred]
      have hwd := writeData_bounds cap line
        { core with currentLine := core.currentLine + 1, columnMap := parseHeaderLine line } h
      refine ⟨fun hx => ⟨hwd.2.1 hx, fun _ => hwd.1⟩, hwd.2.2.1, ?_⟩
      intro e he hne
      exact absurd (hwd.2.2.2 e he) hne
    · cases v with
      | none =>
        have hred : validateAndWrite none mode cap line core =
            writeDataFromContext cap line { core with currentLine := core.currentLine + 1 } := by
          unfold validateAndWrite
          rw [if_neg hl, if_neg hline1]
        rw [hred]
        have hwd := writeData_bounds cap line { core with currentLine := core.currentLine + 1 } h
        refine ⟨fun hx => ⟨hwd.2.1 hx, fun _ => hwd.1⟩, hwd.2.2.1, ?_⟩
        intro e he hne
        exact absurd (hwd.2.2.2 e he) hne
      | some vf =>
        have hred := validateAndWrite_eq_some vf mode cap line core hl hline1
        have hvc := validateContent_effects vf mode line { core with currentLine := core.currentLine + 1 }
        rcases hvcr : validateContent vf mode line { core with currentLine := core.currentLine + 1 }
          with ⟨core2, skip, verr⟩
        rw [hvcr] at hvc hred
        have hw2 : core2.written = core.written := hvc.1
        rw [hred]
        cases verr with
        | some e =>
          refine ⟨?_, ?_, ?_⟩
          · intro hx
            exact absurd hx (by simp)
          · intro hx
            have he : e = CopyErr.maxFileSizeExceeded := Option.some.inj hx
            exact absurd he (hvc.2 e rfl)
          · intro e2 he2 hne2
            refine ⟨by simp, ?_⟩
            show core2.written ≤ cap
            omega
        | none =>
          cases skip with
          | true =>
            refine ⟨?_, ?_, ?_⟩
            · intro _
              refine ⟨?_, fun hv => by simp at hv⟩
              show core2.written ≤ cap
              omega
            · intro hx
              exact absurd hx (by simp)
            · intro e he _
              exact absurd he (by simp)
          | false =>
            have hwd := writeData_bounds cap line core2 (by omega)
            have hstep : (match ((core2, false, none) : CopyCore × Bool × Option CopyErr) with
                | (c2, _, some e) => (c2, some e)
                | (c2, skip, none) =>
                  if skip = true then (c2, none) else writeDataFromContext cap line c2) =
                writeDataFromContext cap line core2 := by
              simp
            rw [hstep]
            refine ⟨fun hx => ⟨hwd.2.1 hx, fun hv => by simp at hv⟩, hwd.2.2.1, ?_⟩
            intro e he hne
            exact absurd (hwd.2.2.2 e he) hne

/-- Bounds for a run over a batch of complete lines, each of length at
most `B`. -/
theorem runLines_bounds (v : Option ValidatorFn) (mode : String) (cap B : Nat) :
    ∀ (lines : List Str) (core : CopyCore), core.written ≤ cap →
      (∀ l ∈ lines, l.length ≤ B) →
      (((runLines v mode cap lines core).2 = none →
          (runLines v mode cap lines core).1.written ≤ cap ∧
          (v = none → (runLines v mode cap lines core).1.written =
            core.written + (lines.map List.length).sum)) ∧
       ((runLines v mode cap lines core).2 = some .maxFileSizeExceeded →
          cap < (runLines v mode cap lines core).1.written ∧
          (runLines v mode cap lines core).1.written ≤ cap + B) ∧
       (∀ e, (runLines v mode cap lines core).2 = some e →
          ¬ (e = CopyErr.maxFileSizeExceeded) →
          ¬ (v = none) ∧ (runLines v mode cap lines core).1.written ≤ cap)) := by
  intro lines
  induction lines with
  | nil =>
    intro core h _
    refine ⟨fun _ => ⟨h, fun _ => by simp [runLines]⟩, ?_, ?_⟩
    · intro hx
      simp [runLines] at hx
    · intro e he
      simp [runLines] at he
  | cons l ls ih =>
    intro core h hB
    have hW := validateAndWrite_bounds v mode cap l core h
    rcases hva : validateAndWrite v mode cap l core with ⟨core1, err1⟩
    rw [hva] at hW
    have hrl : runLines v mode cap (l :: ls) core =
        (match ((core1, err1) : CopyCore × Option CopyErr) with
         | (c1, some e) => (c1, some e)
         | (c1, none) => runLines v mode cap ls c1) := by
      rw [runLines, hva]
    cases err1 with
    | some e =>
      rw [hrl]
      by_cases he : e = CopyErr.maxFileSizeExceeded
      · subst he
        have hb := hW.2.1 rfl
        refine ⟨?_, ?_, ?_⟩
        · intro hx
          exact absurd hx (by simp)
        · intro _
          have hb1 : cap < core1.written := hb.1
          have hb2 : core1.written ≤ cap + l.length := hb.2
          have hlB : l.length ≤ B := hB l (List.mem_cons_self _ _)
          refine ⟨hb1, ?_⟩
          show core1.written ≤ cap + B
          omega
        · intro e2 he2 hne2
          have : CopyErr.maxFileSizeExceeded = e2 := Option.some.inj he2
          exact absurd this.symm hne2
      · have ho := hW.2.2 e rfl he
        refine ⟨?_, ?_, ?_⟩
        · intro hx
          exact absurd hx (by simp)
        · intro hx
          have : e = CopyErr.maxFileSizeExceeded := Option.some.inj hx
          exact absurd this he
        · intro e2 he2 hne2
          exact ⟨ho.1, ho.2⟩
    | none =>
      rw [hrl]
      have h1 := hW.1 rfl
      have hrest := ih core1 h1.1 (fun x hx => hB x (List.mem_cons_of_mem _ hx))
      refine ⟨?_, hrest.2.1, hrest.2.2⟩
      intro hx
      refine ⟨(hrest.1 hx).1, fun hv => ?_⟩
      have hsum := (hrest.1 hx).2 hv
      have hlen := h1.2 hv
      rw [hsum, hlen]
      simp only [List.map_cons, List.sum_cons]
      omega

/-- Bounds for the EOF step of the copy loop: either nothing is pending,
or the newline-free pending buffer is handled as one final line. -/
theorem eofStep_bounds (v : Option ValidatorFn) (mode : String) (cap : Nat)
    (buf : Str) (core : CopyCore) (res : CopyCore × Option CopyErr)
    (hres : res = if buf = [] then (core, none) else validateAndWrite v mode cap buf core)
    (h : core.written ≤ cap) (hnl : ¬ (nl ∈ buf)) :
    ((res.2 = none → res.1.written ≤ cap ∧
        (v = none → res.1.written = core.written + buf.length)) ∧
     (res.2 = some .maxFileSizeExceeded →
        cap < res.1.written ∧ res.1.written ≤ cap + maxPieceLen (buf ++ [])) ∧
     (∀ e, res.2 = some e → ¬ (e = CopyErr.maxFileSizeExceeded) →
        ¬ (v = none) ∧ res.1.written ≤ cap)) := by
  by_cases hbuf : buf = []
  · subst hbuf
    rw [if_pos rfl] at hres
    subst hres
    refine ⟨fun _ => ⟨h, fun _ => by simp⟩, ?_, ?_⟩
    · intro hx
      exact absurd hx (by simp)
    · intro e he
      exact absurd he (by simp)
  · rw [if_neg hbuf] at hres
    subst hres
    have hW := validateAndWrite_bounds v mode cap buf core h
    have hmp : maxPieceLen (buf ++ []) = buf.length := by
      rw [List.append_nil]
      exact maxPieceLen_no_nl buf hnl hbuf
    refine ⟨hW.1, ?_, hW.2.2⟩
    intro hx
    have := hW.2.1 hx
    rw [hmp]
    exact this

/-- The master bound of the chunked copy loop: with enough fuel (the
source length) and a newline-free pending buffer, a successful run keeps
the count within the cap (writing every byte when there is no
validator); the size error overshoots the cap by at most one write unit
of the remaining input; any other error implies a validator was present
and the count stayed within the cap. -/
theorem processChunks_bounds (v : Option ValidatorFn) (mode : String) (cap bs : Nat) :
    ∀ (fuel : Nat) (src buf : Str) (core : CopyCore),
      src.length ≤ fuel → core.written ≤ cap → ¬ (nl ∈ buf) →
      (((processChunksF v mode cap bs fuel src buf core).2 = none →
          (processChunksF v mode cap bs fuel src buf core).1.written ≤ cap ∧
          (v = none → (processChunksF v mode cap bs fuel src buf core).1.written =
            core.written + buf.length + src.length)) ∧
       ((processChunksF v mode cap bs fuel src buf core).2 = some .maxFileSizeExceeded →
          cap < (processChunksF v mode cap bs fuel src buf core).1.written ∧
          (processChunksF v mode cap bs fuel src buf core).1.written ≤
            cap + maxPieceLen (buf ++ src)) ∧
       (∀ e, (processChunksF v mode cap bs fuel src buf core).2 = some e →
          ¬ (e = CopyErr.maxFileSizeExceeded) →
          ¬ (v = none) ∧ (processChunksF v mode cap bs fuel src buf core).1.written ≤ cap)) := by
  intro fuel
  induction fuel with
  | zero =>
    intro src buf core hfuel h hnl
    cases src with
    | nil =>
      have heof := eofStep_bounds v mode cap buf core
        (processChunksF v mode cap bs 0 [] buf core) rfl h hnl
      refine ⟨fun hx => ⟨(heof.1 hx).1, fun hv => ?_⟩, heof.2.1, heof.2.2⟩
      have := (heof.1 hx).2 hv
      simpa using this
    | cons c rest => simp at hfuel
  | succ fuel ih =>
    intro src buf core hfuel h hnl
    cases src with
    | nil =>
      have heof := eofStep_bounds v mode cap buf core
        (processChunksF v mode cap bs (fuel + 1) [] buf core) rfl h hnl
      refine ⟨fun hx => ⟨(heof.1 hx).1, fun hv => ?_⟩, heof.2.1, heof.2.2⟩
      have := (heof.1 hx).2 hv
      simpa using this
    | cons c rest =>
      rcases hsp : splitCompleteLines (buf ++ (c :: rest.take (bs - 1))) with ⟨lines, rem⟩
      have hstep : processChunksF v mode cap bs (fuel + 1) (c :: rest) buf core =
          (match runLines v mode cap lines core with
           | (core2, some e) => (core2, some e)
           | (core2, none) =>
             processChunksF v mode cap bs fuel (rest.drop (bs - 1)) rem core2) := by
        show (match splitCompleteLines (buf ++ (c :: rest.take (bs - 1))) with
              | (lines, rem) =>
                match runLines v mode cap lines core with
                | (core2, some e) => (core2, some e)
                | (core2, none) =>
                  processChunksF v mode cap bs fuel (rest.drop (bs - 1)) rem core2) = _
        rw [hsp]
      have hjoin : buf ++ (c :: rest) = (buf ++ (c :: rest.take (bs - 1))) ++ rest.drop (bs - 1) := by
        rw [List.append_assoc]
        simp [List.take_append_drop]
      have hthrough := maxPieceLen_through (buf ++ (c :: rest.take (bs - 1)))
        (rest.drop (bs - 1)) lines rem hsp
      have hlinesB : ∀ l ∈ lines, l.length ≤ maxPieceLen (buf ++ (c :: rest)) := by
        intro l hl
        rw [hjoin]
        exact hthrough.1 l hl
      have hremB : maxPieceLen (rem ++ rest.drop (bs - 1)) ≤ maxPieceLen (buf ++ (c :: rest)) := by
        rw [hjoin]
        exact hthrough.2
    
      have hRL := runLines_bounds v mode cap (maxPieceLen (buf ++ (c :: rest))) lines core h hlinesB
      rcases hrn : runLines v mode cap lines core with ⟨core2, err2⟩
      rw [hrn] at hRL
      rw [hstep, hrn]
      cases err2 with
      | some e =>
        refine ⟨?_, ?_, ?_⟩
        · intro hx
          exact absurd (show (some e : Option CopyErr) = none from hx) (by simp)
        · intro hx
          have he : e = CopyErr.maxFileSizeExceeded :=
            Option.some.inj
              (show (some e : Option CopyErr) = some CopyErr.maxFileSizeExceeded from hx)
          subst he
          exact hRL.2.1 rfl
        · intro e2 he2 hne2
          have he : e = e2 :=
            Option.some.inj (show (some e : Option CopyErr) = some e2 from he2)
          subst he
          exact hRL.2.2 e rfl hne2
      | none =>
        have h2 := hRL.1 rfl
        have hnl2 : ¬ (nl ∈ rem) :=
          splitCompleteLines_rem_no_nl (buf ++ (c :: rest.take (bs - 1))) lines rem hsp
        have hfuel2 : (rest.drop (bs - 1)).length ≤ fuel := by
          have hd : (rest.drop (bs - 1)).length ≤ rest.length := by
            rw [List.length_drop]
            omega
          have : rest.length + 1 ≤ fuel + 1 := by simpa using hfuel
          omega
        have hrec := ih (rest.drop (bs - 1)) rem core2 hfuel2 h2.1 hnl2
        refine ⟨?_, ?_, hrec.2.2⟩
        · intro hx
          refine ⟨(hrec.1 hx).1, fun hv => ?_⟩
          have hs2 : (processChunksF v mode cap bs fuel (rest.drop (bs - 1)) rem core2).1.written =
              core2.written + rem.length + (rest.drop (bs - 1)).length := (hrec.1 hx).2 hv
          have hs1b : core2.written = core.written + (lines.map List.length).sum := h2.2 hv
          have hlens := splitCompleteLines_length (buf ++ (c :: rest.take (bs - 1))) lines rem hsp
          have hlapp : (buf ++ (c :: rest.take (bs - 1))).length =
              buf.length + (c :: rest.take (bs - 1)).length := List.length_append _ _
          have hlen3 : buf.length + (c :: rest.take (bs - 1)).length + (rest.drop (bs - 1)).length =
              buf.length + (c :: rest).length := by
            have hj := congrArg List.length hjoin
            simp only [List.length_append] at hj
            omega
          show (processChunksF v mode cap bs fuel (rest.drop (bs - 1)) rem core2).1.written =
              core.written + buf.length + (c :: rest).length
          omega
        · intro hx
          have hb := hrec.2.1 hx
          refine ⟨hb.1, ?_⟩
          exact le_trans hb.2 (by omega)

/-- C5 counterexample: with buffer size 2 and cap 4, a 10-byte
single-line source is accepted as one write unit, so the copy reports
the size error only after writing 10 bytes — exceeding the cap by more
than one buffer, refuting the claimed bound. -/
theorem copy_overshoot_counterexample :
    (copyWithMaxSize none "reject_file" 2 4 ("aaaaaaaaaa").data).2 =
      some CopyErr.maxFileSizeExceeded ∧
    (copyWithMaxSize none "reject_file" 2 4 ("aaaaaaaaaa").data).1.written = 10 ∧
    4 + 2 < 10 := by
  exact ⟨by decide, by decide, by decide⟩

/-- C5 (amended): the bounded copy checks the cumulative count after
each accepted line is written; a source whose accepted bytes exceed the
cap (here: no validator, so all bytes are accepted) makes the copy
return the max-file-size-exceeded error, and the written count never
exceeds the cap by more than the longest write unit (one line, or the
trailing partial line) — a bound that can exceed one buffer. -/
theorem copyWithMaxSize_size_enforcement (v : Option ValidatorFn) (mode : String)
    (bs cap : Nat) (content : Str) :
    ((copyWithMaxSize v mode bs cap content).2 = none →
       (copyWithMaxSize v mode bs cap content).1.written ≤ cap) ∧
    ((copyWithMaxSize v mode bs cap content).2 = some .maxFileSizeExceeded →
       cap < (copyWithMaxSize v mode bs cap content).1.written ∧
       (copyWithMaxSize v mode bs cap content).1.written ≤ cap + maxPieceLen content) ∧
    (v = none → cap < content.length →
       (copyWithMaxSize v mode bs cap content).2 = some .maxFileSizeExceeded) := by
  have hm := processChunks_bounds v mode cap bs content.length content [] initCore
    (Nat.le_refl _) (by simp [initCore]) (by simp)
  unfold copyWithMaxSize
  refine ⟨fun hx => (hm.1 hx).1, ?_, ?_⟩
  · intro hx
    have hb := hm.2.1 hx
    simpa using hb
  · intro hv hlen
    rcases herr : (processChunksF v mode cap bs content.length content [] initCore).2 with _ | e
    · exfalso
      have h1 := (hm.1 herr).1
      have h2 := (hm.1 herr).2 hv
      rw [h2] at h1
      simp [initCore] at h1
      omega
    · by_cases he : e = CopyErr.maxFileSizeExceeded
      · rw [he]
      · exact absurd hv ((hm.2.2 e herr he).1)

/-- C5 witness: the spec's boundary case — a 1-byte cap on a 2-byte
input — instantiating the amended statement. -/
theorem copyWithMaxSize_size_enforcement_witness :
    (copyWithMaxSize none "reject_file" 1 1 ("ab").data).2 =
      some CopyErr.maxFileSizeExceeded ∧
    1 < (copyWithMaxSize none "reject_file" 1 1 ("ab").data).1.written ∧
    (copyWithMaxSize none "reject_file" 1 1 ("ab").data).1.written ≤
      1 + maxPieceLen ("ab").data := by
  have h := copyWithMaxSize_size_enforcement none "reject_file" 1 1 ("ab").data
  have herr := h.2.2 rfl (by decide)
  exact ⟨herr, (h.2.1 herr).1, (h.2.1 herr).2⟩

/-- C7 counterexample: the upload whose row 2 carries `=CMD('calc')`,
screened in mode `reject_file`, is answered with HTTP status 400 — not
422 as claimed — while the error detail does carry line 2 and the
column name `value` resolved from the header of line 1. -/
theorem uploadSecurity_status_counterexample :
    uploadCopyResponse (fun _ => none) (fun _ => (true, none, none)) "data.csv"
        "reject_file" 65536 2147483648 securityDemoContent =
      some (400,
        [{ code := "SECURITY_VALIDATION_FAILED",
           message := "Security validation failed: file contains potentially malicious content",
           details := { line := 2, column := "value",
                        foundValue := String.mk (("=CMD(").data ++ [squote] ++
                          ("calc").data ++ [squote] ++ (")").data),
                        suggestion := "Please remove Excel/spreadsheet formulas from the file." } }]) ∧
    (400 : Nat) ≠ 422 :=
  ⟨by decide, by decide⟩

/-- C7 (amended): every upload rejected by the injection screen (error
code SECURITY_VALIDATION_FAILED, mode reject_file) is answered with HTTP
status 400 (not 422), and its error detail carries the issue's 1-based
line number and column name; the screen stamps the issue with exactly
the current 1-based line number and a column name resolved through the
header map (`getColumnName`). -/
theorem uploadSecurityRejection
    (venc : Str → Option String) (vstruct : Str → Bool × Option ValidationIssue × Option VErr)
    (filename mode : String) (bs maxSize : Nat) (content : Str) (core : CopyCore) (m : String)
    (h : copyWithMaxSize (some (validationWrapper venc vstruct filename)) mode bs maxSize content
          = (core, some (.invalidBuffer m))) :
    (uploadCopyResponse venc vstruct filename mode bs maxSize content =
        some (400, [securityErrorOf core.validationIssue]) ∧
      (securityErrorOf core.validationIssue).code = "SECURITY_VALIDATION_FAILED" ∧
      (∀ iss, core.validationIssue = some iss →
        (securityErrorOf core.validationIssue).details.line = iss.line ∧
        (securityErrorOf core.validationIssue).details.column = iss.column)) ∧
    (∀ (data : Str) (k : Nat) (cmap : List String) (iss : ValidationIssue)
        (b : Bool) (er : Option VErr),
      csvRowCheckDetailed data k cmap = (b, some iss, er) →
      iss.line = k ∧ ∃ io : Option Nat, iss.column = getColumnName io cmap) := by
  have hcf : copyFileDataM venc vstruct filename mode bs maxSize content =
      (core, [securityErrorOf core.validationIssue],
       some "security validation failed: file contains potentially malicious content") := by
    unfold copyFileDataM
    rw [h]
  refine ⟨⟨?_, ?_, ?_⟩, ?_⟩
  · unfold uploadCopyResponse
    rw [hcf]
    have h400 : uploadHttpStatus
        "security validation failed: file contains potentially malicious content" = 400 := by
      decide
    exact congrArg (fun n => some (n, [securityErrorOf core.validationIssue])) h400
  · cases hvi : core.validationIssue with
    | none => simp [securityErrorOf]
    | some iss => simp [securityErrorOf]
  · intro iss hiss
    rw [hiss]
    constructor <;> simp [securityErrorOf]
  · intro data k cmap iss b er hrow
    unfold csvRowCheckDetailed at hrow
    cases hfs : findSuspiciousContent data with
    | none => rw [hfs] at hrow; exact absurd hrow (by simp)
    | some pm =>
      rw [hfs] at hrow
      obtain ⟨pat, mt⟩ := pm
      have hiss : iss = createValidationIssue data pat mt k cmap := by
        have := congrArg (fun t => t.2.1) hrow
        simpa using this.symm
      subst hiss
      unfold createValidationIssue
      by_cases hm : mt = []
      · rw [if_pos hm]
        exact ⟨rfl, none, rfl⟩
      · rw [if_neg hm]
        cases hff : findSuspiciousField (parseCSVFields data) mt with
        | none => exact ⟨rfl, none, rfl⟩
        | some pr => exact ⟨rfl, some pr.1, rfl⟩

/-- C7 witness: a concrete script-injection upload instantiating the
amended statement, with the hypothesis discharged by evaluation. -/
theorem uploadSecurityRejection_witness :
    uploadCopyResponse (fun _ => none) (fun _ => (true, none, none)) "up.csv"
        "reject_file" 65536 2147483648 scriptDemoContent =
      some (400,
        [securityErrorOf ((copyWithMaxSize
            (some (validationWrapper (fun _ => none) (fun _ => (true, none, none)) "up.csv"))
            "reject_file" 65536 2147483648 scriptDemoContent).1.validationIssue)]) := by
  have h := (uploadSecurityRejection (fun _ => none) (fun _ => (true, none, none)) "up.csv"
    "reject_file" 65536 2147483648 scriptDemoContent
    (copyWithMaxSize (some (validationWrapper (fun _ => none)
      (fun _ => (true, none, none)) "up.csv")) "reject_file" 65536 2147483648 scriptDemoContent).1
    "buffer validation failed: detected suspicious content" (by decide)).1.1
  exact h

/-- C8: the encoding check of the upload pipeline is unreachable — the
declared-vs-detected validation runs only when the wrapper is invoked
with line number 0, but the bounded copy invokes it only with the
1-based current line (at least 2, line 1 being the header).  An upload
declaring `utf-16` over valid UTF-8 bytes therefore succeeds with no
INVALID_ENCODING error, for every possible encoding validator `venc`
(and structural validator `vstruct`): the whole file is written and
`copyFileData` returns no error. -/
theorem uploadEncodingCheckUnreachable
    (venc : Str → Option String)
    (vstruct : Str → Bool × Option ValidationIssue × Option VErr) :
    copyFileDataM venc vstruct "data.csv" "reject_file" 65536 2147483648 encodingDemoContent =
      ({ out := encodingDemoContent, written := 8, currentLine := 2, columnMap := ["a", "b"],
         validationIssue := none, warnings := 0 }, [], none) := rfl

/-- C6 counterexample: on a freshly opened handle (connection open, both
files present, no injected errors) the first `Close` succeeds, and a
second `Close` returns nil — not an error as the claim states:
`database/sql`'s close is idempotent, and the not-exist error of
removing the already-removed database file is explicitly ignored by the
`!os.IsNotExist(err)` guard. -/
theorem dbClose_twice_counterexample :
    (dbClose none none ⟨false, false, true, true⟩).1 = none ∧
    (dbClose none none (dbClose none none ⟨false, false, true, true⟩).2).1 = none :=
  ⟨rfl, rfl⟩

/-- C6 (amended): for every handle state and injected driver/filesystem
errors, if a first `Close` succeeds then a second `Close` also returns
nil (rather than an error), and — the model being a total function — it
does not panic. -/
theorem dbClose_second_returns_nil (e1 f1 e2 f2 : Option String) (st : DBState)
    (h : (dbClose e1 f1 st).1 = none) :
    (dbClose e2 f2 (dbClose e1 f1 st).2).1 = none := by
  obtain ⟨cc, sc, dfe, wfe⟩ := st
  cases sc <;> cases dfe <;> cases wfe <;> cases e1 <;> cases f1 <;>
    first
      | rfl
      | exact Option.noConfusion h

/-- Witness for C6 (amended): the database file already gone, a
filesystem error injected, and a driver error injected for the second
call — the first close succeeds and the second still returns nil. -/
theorem dbClose_second_returns_nil_witness :
    (dbClose none (some "disk error") ⟨false, false, false, true⟩).1 = none ∧
    (dbClose (some "late close") (some "disk error")
        (dbClose none (some "disk error") ⟨false, false, false, true⟩).2).1 = none :=
  ⟨rfl, dbClose_second_returns_nil none (some "disk error") (some "late close")
    (some "disk error") ⟨false, false, false, true⟩ rfl⟩

theorem wsSemi_facts (c : Char) (hc : isGoSpace c = true ∨ c = ';') :
    ¬(lowerAscii c = 'u') ∧ ¬(lowerAscii c = 'o') ∧ ¬(lowerAscii c = 'e') ∧
    ¬(lowerAscii c = 'x') ∧ ¬(c = '-') ∧ ¬(c = '/') ∧
    ¬(c = '\\') ∧ ¬(c = '"') ∧ ¬(c = squote) := by
  rcases hc with h | h
  · simp only [isGoSpace, Bool.or_eq_true, decide_eq_true_eq] at h
    rcases h with (((((((h | h) | h) | h) | h) | h) | h) | h) <;> subst h <;> decide
  · subst h; decide

theorem matchToks_pred_none (p : Char → Bool) (ts : List Tok) (pv : Option Char) (t : Str)
    (h : ∀ c ∈ t, p c = false) : matchToks (.pred p :: ts) pv t = none := by
  cases t with
  | nil => rfl
  | cons c r =>
    show (if p c then (matchToks ts (some c) r).map (c :: ·) else none) = none
    rw [h c (List.mem_cons_self c r)]
    rfl

theorem matchToks_wordB_pred_none (p : Char → Bool) (ts : List Tok) (pv : Option Char)
    (t : Str) (h : ∀ c ∈ t, p c = false) :
    matchToks (.wordB :: .pred p :: ts) pv t = none := by
  show (if isWordOpt pv != isWordOpt t.head? then matchToks (.pred p :: ts) pv t
        else none) = none
  by_cases hb : (isWordOpt pv != isWordOpt t.head?) = true
  · rw [if_pos hb]
    exact matchToks_pred_none p ts pv t h
  · rw [if_neg hb]

theorem findMatch_none_of_all_fail (toks : List Tok) (P : Char → Prop)
    (hfail : ∀ (pv : Option Char) (t : Str), (∀ c ∈ t, P c) → matchToks toks pv t = none) :
    ∀ (s : Str) (prev : Option Char), (∀ c ∈ s, P c) → findMatch toks prev s = none := by
  intro s
  induction s with
  | nil =>
    intro prev hp
    show matchToks toks prev [] = none
    exact hfail prev [] (by intro c hc; cases hc)
  | cons c rest ih =>
    intro prev hp
    conv_lhs => unfold findMatch
    rw [hfail prev (c :: rest) hp]
    exact ih (some c) (fun d hd => hp d (List.mem_cons_of_mem _ hd))

theorem validateQuery_wsSemi (q : Str) (hq : ∀ c ∈ q, isGoSpace c = true ∨ c = ';') :
    validateQuery q = none := by
  have h1 : reMatches reUnionSelect q = false := by
    unfold reMatches
    rw [findMatch_none_of_all_fail reUnionSelect (fun c => isGoSpace c = true ∨ c = ';')
      (fun pv t ht => matchToks_wordB_pred_none _ _ pv t
        (fun c hc => decide_eq_false (wsSemi_facts c (ht c hc)).1)) q none hq]
    rfl
  have h2 : reMatches reOrEq q = false := by
    unfold reMatches
    rw [findMatch_none_of_all_fail reOrEq (fun c => isGoSpace c = true ∨ c = ';')
      (fun pv t ht => matchToks_wordB_pred_none _ _ pv t
        (fun c hc => decide_eq_false (wsSemi_facts c (ht c hc)).2.1)) q none hq]
    rfl
  have h3 : reMatches reDashDash q = false := by
    unfold reMatches
    rw [findMatch_none_of_all_fail reDashDash (fun c => isGoSpace c = true ∨ c = ';')
      (fun pv t ht => matchToks_pred_none _ _ pv t
        (fun c hc => decide_eq_false (wsSemi_facts c (ht c hc)).2.2.2.2.1)) q none hq]
    rfl
  have h4 : reMatches reBlockComment q = false := by
    unfold reMatches
    rw [findMatch_none_of_all_fail reBlockComment (fun c => isGoSpace c = true ∨ c = ';')
      (fun pv t ht => matchToks_pred_none _ _ pv t
        (fun c hc => decide_eq_false (wsSemi_facts c (ht c hc)).2.2.2.2.2.1)) q none hq]
    rfl
  have h5 : reMatches reExec q = false := by
    unfold reMatches
    rw [findMatch_none_of_all_fail reExec (fun c => isGoSpace c = true ∨ c = ';')
      (fun pv t ht => matchToks_wordB_pred_none _ _ pv t
        (fun c hc => decide_eq_false (wsSemi_facts c (ht c hc)).2.2.1)) q none hq]
    rfl
  have h6 : reMatches reXp q = false := by
    unfold reMatches
    rw [findMatch_none_of_all_fail reXp (fun c => isGoSpace c = true ∨ c = ';')
      (fun pv t ht => matchToks_wordB_pred_none _ _ pv t
        (fun c hc => decide_eq_false (wsSemi_facts c (ht c hc)).2.2.2.1)) q none hq]
    rfl
  have hall : ∀ pr ∈ suspiciousPatterns, ¬((fun pr => reMatches pr.2 q) pr = true) := by
    intro pr hpr
    simp only [suspiciousPatterns, List.mem_cons, List.not_mem_nil, or_false] at hpr
    rcases hpr with rfl | rfl | rfl | rfl | rfl | rfl <;>
      simp [h1, h2, h3, h4, h5, h6]
  unfold validateQuery
  rw [List.find?_eq_none.mpr hall]
  rfl

theorem dropWhile_nil_of_all (p : Char → Bool) :
    ∀ (s : Str), (∀ c ∈ s, p c = true) → s.dropWhile p = []
  | [], _ => rfl
  | c :: r, h => by
    have hc : p c = true := h c (List.mem_cons_self c r)
    show (match p c with | true => List.dropWhile p r | false => c :: r) = []
    rw [hc]
    exact dropWhile_nil_of_all p r (fun d hd => h d (List.mem_cons_of_mem _ hd))

theorem trimSpace_eq_nil (s : Str) (h : ∀ c ∈ s, isGoSpace c = true) : trimSpace s = [] := by
  unfold trimSpace
  rw [dropWhile_nil_of_all isGoSpace s h]
  rfl

theorem splitRun_wsSemi (q : Str) :
    ∀ (acc : List Str) (cur : Str),
      (∀ c ∈ q, isGoSpace c = true ∨ c = ';') →
      (∀ s ∈ acc, ∀ c ∈ s, isGoSpace c = true) →
      (∀ c ∈ cur, isGoSpace c = true) →
      (∀ s ∈ (splitRun q ⟨acc, cur, false, false⟩).acc, ∀ c ∈ s, isGoSpace c = true) ∧
      (∀ c ∈ (splitRun q ⟨acc, cur, false, false⟩).cur, isGoSpace c = true) := by
  induction q with
  | nil => intro acc cur _ hacc hcur; exact ⟨hacc, hcur⟩
  | cons c r ih =>
    intro acc cur hq hacc hcur
    have hc := hq c (List.mem_cons_self c r)
    have hf := wsSemi_facts c hc
    have hq2 : ∀ d ∈ r, isGoSpace d = true ∨ d = ';' :=
      fun d hd => hq d (List.mem_cons_of_mem _ hd)
    have hrun : splitRun (c :: r) ⟨acc, cur, false, false⟩ =
        splitRun r (splitStep ⟨acc, cur, false, false⟩ c) := rfl
    by_cases hsemi : c = ';'
    · subst hsemi
      have hstep : splitStep ⟨acc, cur, false, false⟩ ';' =
          ⟨acc ++ [cur], [], false, false⟩ := rfl
      rw [hrun, hstep]
      refine ih (acc ++ [cur]) [] hq2 ?_ ?_
      · intro s hs
        rcases List.mem_append.mp hs with h | h
        · exact hacc s h
        · have heq : s = cur := List.mem_singleton.mp h
          subst heq
          exact hcur
      · intro d hd
        exact absurd hd (List.not_mem_nil d)
    · have hgs : isGoSpace c = true := hc.resolve_right hsemi
      have hstep : splitStep ⟨acc, cur, false, false⟩ c =
          ⟨acc, cur ++ [c], false, false⟩ := by
        simp [splitStep, hsemi, hf.2.2.2.2.2.2.1, hf.2.2.2.2.2.2.2.1, hf.2.2.2.2.2.2.2.2]
      rw [hrun, hstep]
      refine ih acc (cur ++ [c]) hq2 hacc ?_
      intro d hd
      rcases List.mem_append.mp hd with h | h
      · exact hcur d h
      · have heq : d = c := List.mem_singleton.mp h
        subst heq
        exact hgs

theorem split_wsSemi_trim (q : Str) (hq : ∀ c ∈ q, isGoSpace c = true ∨ c = ';') :
    ∀ s ∈ splitQueryBySemicolon q, trimSpace s = [] := by
  intro s hs
  have hinv := splitRun_wsSemi q [] [] hq (by simp) (by simp)
  apply trimSpace_eq_nil
  unfold splitQueryBySemicolon splitFinalize splitInit at hs
  by_cases hlen : (splitRun q ⟨[], [], false, false⟩).cur.length > 0
  · rw [if_pos hlen] at hs
    rcases List.mem_append.mp hs with h | h
    · exact hinv.1 s h
    · have heq : s = (splitRun q ⟨[], [], false, false⟩).cur := List.mem_singleton.mp h
      subst heq
      exact hinv.2
  · rw [if_neg hlen] at hs
    exact hinv.1 s hs

theorem execLoop_all_trim_nil (engine : Str → Except String QueryResultM) (segs : List Str) :
    ∀ (i : Nat), (∀ s ∈ segs, trimSpace s = []) →
      execLoop engine segs i none [] 0 = ⟨.error "no valid queries to execute", []⟩ := by
  induction segs with
  | nil => intro i _; rfl
  | cons s rest ih =>
    intro i h
    have hs : trimSpace s = [] := h s (List.mem_cons_self s rest)
    simp only [execLoop]
    rw [hs]
    rw [if_pos rfl]
    exact ih (i + 1) (fun x hx => h x (List.mem_cons_of_mem _ hx))

/-- C9: for every query string consisting only of whitespace and
semicolons, the quote-aware split yields only segments that trim to the
empty string, so `ExecuteQuery` (after passing pre-flight validation)
returns the error `no valid queries to execute` without handing any
statement to the engine. -/
theorem executeQuery_whitespace_semicolons (engine : Str → Except String QueryResultM)
    (q : Str) (hq : ∀ c ∈ q, isGoSpace c = true ∨ c = ';') :
    executeQuery engine true q = ⟨.error "no valid queries to execute", []⟩ := by
  have hval : validateQuery q = none := validateQuery_wsSemi q hq
  have hred : executeQuery engine true q = execLoop engine (splitQueryBySemicolon q) 0 none [] 0 := by
    show (match validateQuery q with
          | some msg => (⟨.error ("invalid SQL query: " ++ msg), []⟩ : ExecOutcome)
          | none => execLoop engine (splitQueryBySemicolon q) 0 none [] 0) =
        execLoop engine (splitQueryBySemicolon q) 0 none [] 0
    rw [hval]
  rw [hred]
  exact execLoop_all_trim_nil engine (splitQueryBySemicolon q) 0 (split_wsSemi_trim q hq)

/-- C9 witness: the concrete query `\x20; ;\x20\x20` is rejected with
`no valid queries to execute` and no engine call. -/
theorem executeQuery_whitespace_semicolons_witness :
    executeQuery (fun _ => .error "engine must not be called") true (" ; ;  ").data =
      ⟨.error "no valid queries to execute", []⟩ :=
  executeQuery_whitespace_semicolons _ _ (by decide)

end SpotDB
